import Mathlib

/-!
Verification development for the Bounce-Beats entity / command / history core.

The definitions below are a shallow embedding of the JavaScript sources
`src/public/src/EntityManager.js`, `src/public/src/CommandHistory.js`,
`src/public/src/commands.js` and the `Line` / `Ball` classes of
`src/public/src/physics.js`.

Modelling conventions:
* JavaScript objects live in heaps (`lineHeap`, `spawnerHeap`); an object
  reference is its index in the heap.  A heap entry is never deleted (as in a
  garbage-collected language a removed entity's object stays reachable through
  stale references, e.g. from command objects), only the id lists `lines` /
  `spawners` model the manager's collections.
* Coordinates are exact rationals.  The only irrational operation in the
  sources is `Math.hypot`, which is used exclusively in comparisons
  `hypot(a,b) < t`; over the reals that comparison is equivalent to
  `0 ≤ t ∧ a^2 + b^2 < t^2`, which is how it is embedded (`hypotLt`).
* A Matter.js body is modelled by the data the sources construct it from:
  its id, the owning line (if any), its kind, its centre `(cx, cy)` and the
  endpoint difference vector `(dx, dy)`; the body's length `hypot dx dy` and
  angle `atan2 dy dx` are determined by `(dx, dy)`.
  `Matter.World.add` appends, `Matter.World.remove` removes the body if
  present and is a no-op otherwise.
-/

namespace BounceBeats

/-- ENTITY_CONFIG.minLineLength from constants.js. -/
def minLineLength : ℚ := 50

/-- ENTITY_CONFIG.spawnerIntervalMs from constants.js. -/
def spawnerIntervalMs : ℚ := 1500

/-- Exact embedding of the comparison `Math.hypot a b < t`:
over the reals, `Real.sqrt (a^2+b^2) < t` iff `0 ≤ t` and `a^2+b^2 < t^2`. -/
def hypotLt (a b t : ℚ) : Bool :=
  decide (0 ≤ t) && decide (a * a + b * b < t * t)

/-- Kind of a physics body (Matter.Bodies.rectangle for lines,
Matter.Bodies.circle for balls). -/
inductive BodyKind where
  | rect
  | circle
deriving DecidableEq, Repr

/-- A physics body, by the data the sources construct it from.
For a line body (physics.js, Line constructor / updatePosition):
`cx = (x1+x2)/2`, `cy = (y1+y2)/2`, `dx = x2-x1`, `dy = y2-y1`;
Matter receives width `hypot dx dy` and angle `atan2 dy dx`, both determined
by `(dx, dy)`.  For a ball body `(cx, cy)` is the centre and `dx = dy = 8`
(the radius).  `owner` records which line object created the body. -/
structure Body where
  id : ℕ
  owner : Option ℕ
  kind : BodyKind
  cx : ℚ
  cy : ℚ
  dx : ℚ
  dy : ℚ
deriving DecidableEq, Repr

/-- The Line class of physics.js: endpoints plus its current body. -/
structure LineObj where
  x1 : ℚ
  y1 : ℚ
  x2 : ℚ
  y2 : ℚ
  bodyId : ℕ
deriving DecidableEq, Repr

/-- The Ball class of physics.js (the fields relevant to the entity layer). -/
structure Ball where
  x : ℚ
  y : ℚ
  bodyId : ℕ
deriving DecidableEq, Repr

/-- A spawner object literal (EntityManager.addSpawner). -/
structure SpawnerObj where
  x : ℚ
  y : ℚ
  lastSpawn : ℚ
  interval : ℚ
deriving DecidableEq, Repr

/-- The EntityManager state together with the physics world it drives.
`lineHeap` / `spawnerHeap` hold every object ever allocated (index = object
reference); `lines` / `spawners` / `balls` are the manager's collections;
`world` is the list of bodies currently in the Matter world;
`nextBodyId` allocates fresh body ids. -/
structure EMState where
  lineHeap : List LineObj
  lines : List ℕ
  balls : List Ball
  spawnerHeap : List SpawnerObj
  spawners : List ℕ
  world : List Body
  nextBodyId : ℕ
deriving DecidableEq, Repr

/-- A freshly constructed EntityManager over a fresh physics world. -/
def emptyEM : EMState :=
  { lineHeap := [], lines := [], balls := [], spawnerHeap := [],
    spawners := [], world := [], nextBodyId := 0 }

/-- Matter.World.add: appends the body. -/
def addBody (w : List Body) (b : Body) : List Body := w ++ [b]

/-- Matter.World.remove: removes the body if present (first occurrence of
that body id), no-op otherwise. -/
def eraseBody : List Body → ℕ → List Body
  | [], _ => []
  | b :: rest, bid => if b.id = bid then rest else b :: eraseBody rest bid

/-- The rectangle body a Line constructs (physics.js lines 95-104 / 118-129). -/
def mkRectBody (owner bid : ℕ) (x1 y1 x2 y2 : ℚ) : Body :=
  { id := bid, owner := some owner, kind := .rect,
    cx := (x1 + x2) / 2, cy := (y1 + y2) / 2,
    dx := x2 - x1, dy := y2 - y1 }

/-- The circle body a Ball constructs (physics.js lines 167-177). -/
def mkBallBody (bid : ℕ) (x y : ℚ) : Body :=
  { id := bid, owner := none, kind := .circle,
    cx := x, cy := y, dx := 8, dy := 8 }

/-- EntityManager.addLine: rejects (null, no side effect) when
`Math.hypot(x2-x1, y2-y1) < minLineLength`; otherwise constructs a Line,
appends it to the collection and adds its body to the world.
Returns the new line reference (or none). -/
def addLine (x1 y1 x2 y2 : ℚ) (st : EMState) : Option ℕ × EMState :=
  if hypotLt (x2 - x1) (y2 - y1) minLineLength then (none, st)
  else
    let lid := st.lineHeap.length
    let bid := st.nextBodyId
    (some lid,
      { st with
        lineHeap := st.lineHeap ++ [⟨x1, y1, x2, y2, bid⟩],
        lines := st.lines ++ [lid],
        world := addBody st.world (mkRectBody lid bid x1 y1 x2 y2),
        nextBodyId := bid + 1 })

/-- EntityManager.removeLine on a non-null line reference: removes the
line's body from the world, then removes the line from the collection
(first occurrence; `_removeFromArray` uses indexOf/splice). -/
def removeLine (lid : ℕ) (st : EMState) : EMState :=
  match st.lineHeap[lid]? with
  | none => st
  | some l =>
    { st with
      world := eraseBody st.world l.bodyId,
      lines := st.lines.erase lid }

/-- Line.updatePosition followed by the EntityManager body swap
(EntityManager.updateLinePosition): mutate the endpoints, build a new body,
remove the old body from the world, add the new one. -/
def updateLinePosition (lid : ℕ) (x1 y1 x2 y2 : ℚ) (st : EMState) : EMState :=
  match st.lineHeap[lid]? with
  | none => st
  | some l =>
    let bid := st.nextBodyId
    { st with
      lineHeap := st.lineHeap.set lid ⟨x1, y1, x2, y2, bid⟩,
      world := addBody (eraseBody st.world l.bodyId) (mkRectBody lid bid x1 y1 x2 y2),
      nextBodyId := bid + 1 }

/-- Which endpoint of a line; `stop` models the JS string value 'end'. -/
inductive Endpoint where
  | start
  | stop
deriving DecidableEq, Repr

/-- EntityManager.updateLineEndpoint: moves one endpoint, keeping the other
at its current (live) coordinates, and swaps the bodies in the world. -/
def updateLineEndpoint (lid : ℕ) (ep : Endpoint) (x y : ℚ) (st : EMState) : EMState :=
  match st.lineHeap[lid]? with
  | none => st
  | some l =>
    match ep with
    | .start => updateLinePosition lid x y l.x2 l.y2 st
    | .stop => updateLinePosition lid l.x1 l.y1 x y st

/-- EntityManager.addBall: constructs a Ball, appends it, adds its body. -/
def addBall (x y : ℚ) (st : EMState) : EMState :=
  let bid := st.nextBodyId
  { st with
    balls := st.balls ++ [⟨x, y, bid⟩],
    world := addBody st.world (mkBallBody bid x y),
    nextBodyId := bid + 1 }

/-- EntityManager.addSpawner: `interval || config.spawnerInterval` (a null or
zero interval falls back to the default), `lastSpawn` starts at 0.
Always succeeds (the source has no spawner cap). -/
def addSpawner (x y : ℚ) (interval : Option ℚ) (st : EMState) : ℕ × EMState :=
  let iv := match interval with
    | none => spawnerIntervalMs
    | some i => if i = 0 then spawnerIntervalMs else i
  let sid := st.spawnerHeap.length
  (sid,
    { st with
      spawnerHeap := st.spawnerHeap ++ [⟨x, y, 0, iv⟩],
      spawners := st.spawners ++ [sid] })

/-- EntityManager.removeSpawner on a non-null spawner reference. -/
def removeSpawner (sid : ℕ) (st : EMState) : EMState :=
  { st with spawners := st.spawners.erase sid }

/-- EntityManager.clearLines: removes every line body from the world and
empties the collection. -/
def clearLines (st : EMState) : EMState :=
  { st with
    world := st.lines.foldl
      (fun w lid => match st.lineHeap[lid]? with
        | none => w
        | some l => eraseBody w l.bodyId) st.world,
    lines := [] }

/-- EntityManager.clearSpawners. -/
def clearSpawners (st : EMState) : EMState :=
  { st with spawners := [] }

/-- Line.distanceToPoint compared against a threshold, with the final
`Math.hypot … < threshold` embedded via hypotLt. -/
def distanceToPointLt (l : LineObj) (x y thr : ℚ) : Bool :=
  let dx := l.x2 - l.x1
  let dy := l.y2 - l.y1
  let lengthSq := dx * dx + dy * dy
  if lengthSq = 0 then hypotLt (x - l.x1) (y - l.y1) thr
  else
    let t := max 0 (min 1 (((x - l.x1) * dx + (y - l.y1) * dy) / lengthSq))
    hypotLt (x - (l.x1 + t * dx)) (y - (l.y1 + t * dy)) thr

/-- Line.distanceToEndpoint compared against a threshold. -/
def distanceToEndpointLt (l : LineObj) (x y : ℚ) (ep : Endpoint) (thr : ℚ) : Bool :=
  match ep with
  | .start => hypotLt (x - l.x1) (y - l.y1) thr
  | .stop => hypotLt (x - l.x2) (y - l.y2) thr

/-- Whether a line reference is hit by findNearestLine's test
(a dangling reference never matches; in JS every reference is live). -/
def lineHit (st : EMState) (x y thr : ℚ) (lid : ℕ) : Bool :=
  match st.lineHeap[lid]? with
  | none => false
  | some l => distanceToPointLt l x y thr

/-- EntityManager.findNearestLine: first line (in insertion order) whose
distance to the point is below the threshold. -/
def findNearestLine (x y thr : ℚ) (st : EMState) : Option ℕ :=
  go st.lines
where
  go : List ℕ → Option ℕ
    | [] => none
    | lid :: rest => if lineHit st x y thr lid then some lid else go rest

/-- EntityManager.findNearestEndpoint: for each line in order, test the
start endpoint then the end endpoint; return the first hit. -/
def findNearestEndpoint (x y thr : ℚ) (st : EMState) : Option (ℕ × Endpoint) :=
  go st.lines
where
  go : List ℕ → Option (ℕ × Endpoint)
    | [] => none
    | lid :: rest =>
      match st.lineHeap[lid]? with
      | none => go rest
      | some l =>
        if distanceToEndpointLt l x y .start thr then some (lid, .start)
        else if distanceToEndpointLt l x y .stop thr then some (lid, .stop)
        else go rest

/-- Whether a spawner reference is hit by findNearestSpawner's test. -/
def spawnerHit (st : EMState) (x y thr : ℚ) (sid : ℕ) : Bool :=
  match st.spawnerHeap[sid]? with
  | none => false
  | some sp => hypotLt (sp.x - x) (sp.y - y) thr

/-- EntityManager.findNearestSpawner: first spawner within the threshold. -/
def findNearestSpawner (x y thr : ℚ) (st : EMState) : Option ℕ :=
  go st.spawners
where
  go : List ℕ → Option ℕ
    | [] => none
    | sid :: rest => if spawnerHit st x y thr sid then some sid else go rest

/-- The interval updateSpawners uses for a spawner:
`spawner.interval || this.config.spawnerInterval` (0 is falsy in JS). -/
def effectiveInterval (sp : SpawnerObj) : ℚ :=
  if sp.interval = 0 then spawnerIntervalMs else sp.interval

/-- One spawner step of EntityManager.updateSpawners:
`interval = spawner.interval || config.spawnerInterval`; when
`now - lastSpawn > interval` a ball is spawned at the spawner and
`lastSpawn` is set to `now`. -/
def updateOneSpawner (now : ℚ) (st : EMState) (sid : ℕ) : EMState :=
  match st.spawnerHeap[sid]? with
  | none => st
  | some sp =>
    if now - sp.lastSpawn > effectiveInterval sp then
      let st1 := addBall sp.x sp.y st
      { st1 with spawnerHeap := st1.spawnerHeap.set sid { sp with lastSpawn := now } }
    else st

/-- EntityManager.updateSpawners: iterate over the spawner collection. -/
def updateSpawners (now : ℚ) (st : EMState) : EMState :=
  st.spawners.foldl (updateOneSpawner now) st

/-- An axis-aligned bounding box as used by scaleMultiple. -/
structure Bounds where
  minX : ℚ
  minY : ℚ
  maxX : ℚ
  maxY : ℚ
deriving DecidableEq, Repr

/-- The body of the line forEach in EntityManager.scaleMultiple: remap the
line's endpoints by `new = newMin + (old - oldMin) * scale` and push the
change through updateLinePosition (which also swaps the physics body). -/
def scaleLineStep (oldB newB : Bounds) (scaleX scaleY : ℚ) (s : EMState)
    (lid : ℕ) : EMState :=
  match s.lineHeap[lid]? with
  | none => s
  | some l =>
    updateLinePosition lid
      (newB.minX + (l.x1 - oldB.minX) * scaleX)
      (newB.minY + (l.y1 - oldB.minY) * scaleY)
      (newB.minX + (l.x2 - oldB.minX) * scaleX)
      (newB.minY + (l.y2 - oldB.minY) * scaleY) s

/-- The line loop of EntityManager.scaleMultiple. -/
def scaleLinesGo (oldB newB : Bounds) (scaleX scaleY : ℚ) (lineIds : List ℕ)
    (st : EMState) : EMState :=
  lineIds.foldl (scaleLineStep oldB newB scaleX scaleY) st

/-- The body of the spawner forEach in EntityManager.scaleMultiple. -/
def scaleSpawnerStep (oldB newB : Bounds) (scaleX scaleY : ℚ) (s : EMState)
    (sid : ℕ) : EMState :=
  match s.spawnerHeap[sid]? with
  | none => s
  | some sp =>
    let sp1 : SpawnerObj :=
      { sp with
        x := newB.minX + (sp.x - oldB.minX) * scaleX,
        y := newB.minY + (sp.y - oldB.minY) * scaleY }
    { s with spawnerHeap := s.spawnerHeap.set sid sp1 }

/-- The spawner loop of EntityManager.scaleMultiple. -/
def scaleSpawnersGo (oldB newB : Bounds) (scaleX scaleY : ℚ)
    (spawnerIds : List ℕ) (st : EMState) : EMState :=
  spawnerIds.foldl (scaleSpawnerStep oldB newB scaleX scaleY) st

/-- EntityManager.scaleMultiple: remap every passed line (via
updateLinePosition, i.e. with a body swap) and every passed spawner by the
affine map `new = newMin + (old - oldMin) * scale`, with independent X/Y
scale factors derived from the two bounding boxes. -/
def scaleMultiple (lineIds spawnerIds : List ℕ) (oldB newB : Bounds)
    (st : EMState) : EMState :=
  let scaleX := (newB.maxX - newB.minX) / (oldB.maxX - oldB.minX)
  let scaleY := (newB.maxY - newB.minY) / (oldB.maxY - oldB.minY)
  scaleSpawnersGo oldB newB scaleX scaleY spawnerIds
    (scaleLinesGo oldB newB scaleX scaleY lineIds st)

/-- Geometric data of the line collection, in collection order. -/
def lineCoords (st : EMState) : List (ℚ × ℚ × ℚ × ℚ) :=
  st.lines.filterMap
    (fun lid => (st.lineHeap[lid]?).map (fun l => (l.x1, l.y1, l.x2, l.y2)))

/-- Geometric data of the spawner collection, in collection order. -/
def spawnerCoords (st : EMState) : List (ℚ × ℚ) :=
  st.spawners.filterMap
    (fun sid => (st.spawnerHeap[sid]?).map (fun sp => (sp.x, sp.y)))

/-- The command objects of commands.js.  Each constructor carries the fields
the JS object holds; fields that the JS methods reassign (AddLineCommand.line,
RemoveLineCommand.line, AddSpawnerCommand.spawner, RemoveSpawnerCommand.spawner,
ClearAllCommand.lineData / spawnerData) are part of the value, and
cmdExecute / cmdUndo return the updated command alongside the new state.
BatchCommand is not modelled (no claim concerns it). -/
inductive Cmd where
  | addLine (x1 y1 x2 y2 : ℚ) (line : Option ℕ)
  | removeLine (line : Option ℕ) (x1 y1 x2 y2 : ℚ)
  | moveLineEndpoint (line : ℕ) (ep : Endpoint) (newX newY oldX oldY : ℚ)
  | moveLine (line : ℕ) (oldX1 oldY1 oldX2 oldY2 newX1 newY1 newX2 newY2 : ℚ)
  | addSpawner (x y : ℚ) (spawner : Option ℕ)
  | removeSpawner (spawner : ℕ) (x y : ℚ)
  | clearAll (lineData : List (ℚ × ℚ × ℚ × ℚ)) (spawnerData : List (ℚ × ℚ))
deriving DecidableEq, Repr

/-- The execute() methods of commands.js. -/
def cmdExecute : Cmd → EMState → Cmd × EMState
  | .addLine x1 y1 x2 y2 _, st =>
    let (r, st1) := addLine x1 y1 x2 y2 st
    (.addLine x1 y1 x2 y2 r, st1)
  | c@(.removeLine l _ _ _ _), st =>
    match l with
    | none => (c, st)
    | some lid => (c, removeLine lid st)
  | c@(.moveLineEndpoint lid ep nx ny _ _), st =>
    (c, updateLineEndpoint lid ep nx ny st)
  | c@(.moveLine lid _ _ _ _ nx1 ny1 nx2 ny2), st =>
    (c, updateLinePosition lid nx1 ny1 nx2 ny2 st)
  | .addSpawner x y _, st =>
    let (sid, st1) := addSpawner x y none st
    (.addSpawner x y (some sid), st1)
  | c@(.removeSpawner sid _ _), st =>
    (c, removeSpawner sid st)
  | .clearAll _ _, st =>
    let data := st.lines.filterMap
      (fun lid => (st.lineHeap[lid]?).map (fun l => (l.x1, l.y1, l.x2, l.y2)))
    let sdata := st.spawners.filterMap
      (fun sid => (st.spawnerHeap[sid]?).map (fun sp => (sp.x, sp.y)))
    (.clearAll data sdata, clearSpawners (clearLines st))

/-- The undo() methods of commands.js. -/
def cmdUndo : Cmd → EMState → Cmd × EMState
  | c@(.addLine _ _ _ _ l), st =>
    match l with
    | none => (c, st)
    | some lid => (c, removeLine lid st)
  | .removeLine _ x1 y1 x2 y2, st =>
    let (r, st1) := addLine x1 y1 x2 y2 st
    (.removeLine r x1 y1 x2 y2, st1)
  | c@(.moveLineEndpoint lid ep _ _ ox oy), st =>
    (c, updateLineEndpoint lid ep ox oy st)
  | c@(.moveLine lid ox1 oy1 ox2 oy2 _ _ _ _), st =>
    (c, updateLinePosition lid ox1 oy1 ox2 oy2 st)
  | c@(.addSpawner _ _ sp), st =>
    match sp with
    | none => (c, st)
    | some sid => (c, removeSpawner sid st)
  | .removeSpawner _ x y, st =>
    let (sid, st1) := addSpawner x y none st
    (.removeSpawner sid x y, st1)
  | c@(.clearAll data sdata), st =>
    let st1 := data.foldl (fun s d => (addLine d.1 d.2.1 d.2.2.1 d.2.2.2 s).2) st
    let st2 := sdata.foldl (fun s d => (addSpawner d.1 d.2 none s).2) st1
    (c, st2)

/-- The CommandHistory class (CommandHistory.js). -/
structure CommandHistory where
  undoStack : List Cmd
  redoStack : List Cmd
  maxHistorySize : ℕ
deriving DecidableEq, Repr

/-- A freshly constructed CommandHistory (default maxHistorySize = 100). -/
def freshHistory (maxHistorySize : ℕ := 100) : CommandHistory :=
  { undoStack := [], redoStack := [], maxHistorySize := maxHistorySize }

/-- CommandHistory.execute: run the command, push it, clear the redo stack,
drop the oldest entry when the undo stack exceeds maxHistorySize. -/
def histExecute (c : Cmd) (h : CommandHistory) (st : EMState) :
    CommandHistory × EMState :=
  let (c1, st1) := cmdExecute c st
  let u := h.undoStack ++ [c1]
  let u := if h.maxHistorySize < u.length then u.tail else u
  ({ undoStack := u, redoStack := [], maxHistorySize := h.maxHistorySize }, st1)

/-- CommandHistory.undo: pop the undo stack (returning false when empty),
run the command's undo, push it onto the redo stack. -/
def histUndo (h : CommandHistory) (st : EMState) :
    Bool × CommandHistory × EMState :=
  match h.undoStack.getLast? with
  | none => (false, h, st)
  | some c =>
    let (c1, st1) := cmdUndo c st
    (true,
      { h with undoStack := h.undoStack.dropLast,
               redoStack := h.redoStack ++ [c1] }, st1)

/-- CommandHistory.redo: pop the redo stack (returning false when empty),
re-run the command's execute, push it onto the undo stack. -/
def histRedo (h : CommandHistory) (st : EMState) :
    Bool × CommandHistory × EMState :=
  match h.redoStack.getLast? with
  | none => (false, h, st)
  | some c =>
    let (c1, st1) := cmdExecute c st
    (true,
      { h with redoStack := h.redoStack.dropLast,
               undoStack := h.undoStack ++ [c1] }, st1)

/-- One history.undo() call, dropping the returned Bool. -/
def undoStep (p : CommandHistory × EMState) : CommandHistory × EMState :=
  (histUndo p.1 p.2).2

/-- One history.redo() call, dropping the returned Bool. -/
def redoStep (p : CommandHistory × EMState) : CommandHistory × EMState :=
  (histRedo p.1 p.2).2

/-- Calling history.undo() n times in sequence. -/
def undoN : ℕ → CommandHistory × EMState → CommandHistory × EMState
  | 0, p => p
  | n + 1, p => undoN n (undoStep p)

/-- Calling history.redo() n times in sequence. -/
def redoN : ℕ → CommandHistory × EMState → CommandHistory × EMState
  | 0, p => p
  | n + 1, p => redoN n (redoStep p)

/-- Running a list of commands through history.execute in order. -/
def execSeq (cs : List Cmd) (p : CommandHistory × EMState) :
    CommandHistory × EMState :=
  cs.foldl (fun q c => histExecute c q.1 q.2) p

/-! Basic lemmas about the embedding. -/

/-- A history.execute call always leaves the redo stack empty. -/
theorem redoStack_histExecute (c : Cmd) (h : CommandHistory) (st : EMState) :
    (histExecute c h st).1.redoStack = [] := by
  rcases e : cmdExecute c st with ⟨c1, st1⟩
  simp [histExecute, e]

/-- A history.redo call on an empty redo stack is a no-op returning false. -/
theorem histRedo_of_empty (h : CommandHistory) (st : EMState)
    (he : h.redoStack = []) : histRedo h st = (false, h, st) := by
  simp [histRedo, he]

/-! Claim theorems: the straightforward ones. -/

/-- C3: addLine with endpoints whose Euclidean distance is below the
configured minimum line length returns null and has no side effect at all
(the line collection, the physics world, and every other component of the
state are unchanged). -/
theorem addLine_min_length_rejection (st : EMState) (x1 y1 x2 y2 : ℚ)
    (h : (x2 - x1) * (x2 - x1) + (y2 - y1) * (y2 - y1)
          < minLineLength * minLineLength) :
    addLine x1 y1 x2 y2 st = (none, st) := by
  have hb : hypotLt (x2 - x1) (y2 - y1) minLineLength = true := by
    simp only [hypotLt, Bool.and_eq_true, decide_eq_true_eq]
    exact ⟨by norm_num [minLineLength], h⟩
  simp [addLine, hb]

/-- Witness for C3: addLine (0,0)-(0,10) with minimum 50 is rejected on a
fresh manager. -/
theorem addLine_min_length_rejection_witness :
    ((0 - 0 : ℚ) * (0 - 0) + (10 - 0) * (10 - 0)
        < minLineLength * minLineLength) ∧
    addLine 0 0 0 10 emptyEM = (none, emptyEM) :=
  ⟨by norm_num [minLineLength],
   addLine_min_length_rejection emptyEM 0 0 0 10 (by norm_num [minLineLength])⟩

/-- C4: after execute(A), execute(B), undo(), execute(C), a redo() call is a
no-op and returns false, for every starting history, starting state and
commands A, B, C: executing C cleared the redo stack (B is discarded). -/
theorem redo_invalidation_after_new_command (h0 : CommandHistory)
    (st0 : EMState) (A B C : Cmd) :
    let p1 := histExecute A h0 st0
    let p2 := histExecute B p1.1 p1.2
    let p3 := undoStep p2
    let p4 := histExecute C p3.1 p3.2
    histRedo p4.1 p4.2 = (false, p4.1, p4.2) := by
  apply histRedo_of_empty
  apply redoStack_histExecute

/-- C9: an AddLineCommand whose execute() was rejected (the line was shorter
than the minimum, so execute set this.line = null and changed nothing) has an
undo() that is a complete no-op: the line collection and the physics world
are untouched. -/
theorem undo_of_rejected_addLine_noop (st : EMState) (x1 y1 x2 y2 : ℚ)
    (f : Option ℕ)
    (h : (x2 - x1) * (x2 - x1) + (y2 - y1) * (y2 - y1)
          < minLineLength * minLineLength) :
    cmdExecute (.addLine x1 y1 x2 y2 f) st = (.addLine x1 y1 x2 y2 none, st) ∧
    cmdUndo (.addLine x1 y1 x2 y2 none) st = (.addLine x1 y1 x2 y2 none, st) := by
  constructor
  · simp [cmdExecute, addLine_min_length_rejection st x1 y1 x2 y2 h]
  · rfl

/-- Witness for C9 at the rejected line (0,0)-(0,10). -/
theorem undo_of_rejected_addLine_noop_witness :
    ((0 - 0 : ℚ) * (0 - 0) + (10 - 0) * (10 - 0)
        < minLineLength * minLineLength) ∧
    (cmdExecute (.addLine 0 0 0 10 none) emptyEM
        = (.addLine 0 0 0 10 none, emptyEM) ∧
     cmdUndo (.addLine 0 0 0 10 none) emptyEM
        = (.addLine 0 0 0 10 none, emptyEM)) :=
  ⟨by norm_num [minLineLength],
   undo_of_rejected_addLine_noop emptyEM 0 0 0 10 none
     (by norm_num [minLineLength])⟩

/-- C1 counterexample: run MoveLineCommand then RemoveLineCommand (both
constructed against the live line, as the controller does) through
history.execute, then undo() twice.  The collection does not return to its
original contents: undoing RemoveLineCommand recreates the line as a new
object at the post-move coordinates, and the subsequent MoveLineCommand undo
mutates the stale original object instead of the recreated one, so the
collection keeps the moved geometry (0,0)-(100,100) instead of the original
(0,0)-(100,0).  Compared as multisets of geometric data, i.e. exactly the
"same count and same geometric data, allowing for new object identity"
reading of the claim. -/
theorem undo_redo_inverse_counterexample :
    (Multiset.ofList (lineCoords (undoN 2 (execSeq
        [.moveLine 0 0 0 100 0 0 0 100 100, .removeLine (some 0) 0 0 100 100]
        (freshHistory, (addLine 0 0 100 0 emptyEM).2))).2)
      ≠ Multiset.ofList (lineCoords (addLine 0 0 100 0 emptyEM).2)) := by
  norm_num [lineCoords, undoN, undoStep, histUndo, execSeq, histExecute,
    cmdExecute, cmdUndo, addLine, removeLine, updateLinePosition, emptyEM,
    freshHistory, hypotLt, minLineLength, eraseBody, addBody, mkRectBody,
    List.erase, List.filterMap, List.perm_singleton]

/-- C5 counterexample: addSpawner initialises lastSpawn to 0, not to the
creation time (which the code does not even record).  So a spawner created
at wall-clock time t0 = 2000 with the default interval I = 1500 already
spawns a ball at the first updateSpawners(2100) call, although
2100 < t0 + I = 3500: the "zero balls before t0 + I" part of the claim is
false, and ball production is independent of the creation time. -/
theorem spawner_spawns_before_interval_counterexample :
    (addSpawner 5 5 none emptyEM).2.spawnerHeap
        = [{ x := 5, y := 5, lastSpawn := 0, interval := 1500 }] ∧
    (updateSpawners 2100 (addSpawner 5 5 none emptyEM).2).balls.length = 1 ∧
    (2100 : ℚ) < 2000 + 1500 := by
  refine ⟨?_, ?_, by norm_num⟩
  · norm_num [addSpawner, emptyEM, spawnerIntervalMs]
  · norm_num [updateSpawners, updateOneSpawner, effectiveInterval, addSpawner,
      addBall, emptyEM, spawnerIntervalMs, addBody, mkBallBody]

/-- C8 counterexample: a stale line reference whose body is in the world is
reachable through the manager's own interface (add a line, remove it, then
updateLinePosition on the stale reference re-adds a body for it).  On such a
state, removeLine of that absent line is not a no-op: it leaves the
collection alone but removes the stale body from the physics world. -/
theorem removeLine_stale_body_counterexample :
    let s3 := updateLinePosition 0 5 5 200 5
        (removeLine 0 (addLine 0 0 100 0 emptyEM).2)
    (0 : ℕ) ∉ s3.lines ∧
    (removeLine 0 s3).lines = s3.lines ∧
    (removeLine 0 s3).world ≠ s3.world := by
  refine ⟨?_, ?_, ?_⟩ <;>
    norm_num [updateLinePosition, removeLine, addLine, emptyEM, hypotLt,
      minLineLength, eraseBody, addBody, mkRectBody, List.erase]

/-- eraseBody is the identity when no body in the world has the id. -/
theorem eraseBody_of_not_mem (w : List Body) (bid : ℕ)
    (h : ∀ b ∈ w, b.id ≠ bid) : eraseBody w bid = w := by
  induction w with
  | nil => rfl
  | cons b rest ih =>
    have hb : b.id ≠ bid := h b (List.mem_cons_self b rest)
    simp only [eraseBody, if_neg hb]
    rw [ih (fun x hx => h x (List.mem_cons_of_mem b hx))]

/-- C8 (amended): removeLine on a non-null line that is not in the line
collection — and whose body is not in the physics world, the situation in
every state where stale references were not re-registered via
updateLinePosition — is a complete no-op on the whole state. -/
theorem removeLine_absent_noop (st : EMState) (lid : ℕ) (l : LineObj)
    (hl : st.lineHeap[lid]? = some l)
    (hm : lid ∉ st.lines)
    (hw : ∀ b ∈ st.world, b.id ≠ l.bodyId) :
    removeLine lid st = st := by
  unfold removeLine
  rw [hl]
  simp only [eraseBody_of_not_mem st.world l.bodyId hw, List.erase_of_not_mem hm]

/-- Witness for the amended C8: after adding line (0,0)-(100,0) and removing
it again, the stale reference 0 is absent from the collection and its body is
gone from the world, and removeLine 0 is a no-op. -/
theorem removeLine_absent_noop_witness :
    let s2 := removeLine 0 (addLine 0 0 100 0 emptyEM).2
    s2.lineHeap[0]? = some { x1 := 0, y1 := 0, x2 := 100, y2 := 0, bodyId := 0 } ∧
    (0 : ℕ) ∉ s2.lines ∧
    (∀ b ∈ s2.world, b.id ≠ 0) ∧
    removeLine 0 s2 = s2 := by
  have h2 : removeLine 0 (addLine 0 0 100 0 emptyEM).2
      = { lineHeap := [{ x1 := 0, y1 := 0, x2 := 100, y2 := 0, bodyId := 0 }],
          lines := [], balls := [], spawnerHeap := [], spawners := [],
          world := [], nextBodyId := 1 } := by
    norm_num [removeLine, addLine, emptyEM, hypotLt, minLineLength,
      eraseBody, addBody, mkRectBody, List.erase]
  refine ⟨by rw [h2]; rfl, by rw [h2]; simp, by rw [h2]; simp, ?_⟩
  exact removeLine_absent_noop _ 0 _ (by rw [h2]; rfl) (by rw [h2]; simp)
    (by rw [h2]; simp)

/-- If the world's only body owned by line `lid` is the body with id `i`,
and body ids are distinct, then after removing body `i` no body owned by
`lid` remains. -/
theorem filter_owner_eraseBody (w : List Body) (lid i : ℕ)
    (hf : (w.filter (fun b => decide (b.owner = some lid))).map Body.id = [i])
    (hnd : (w.map Body.id).Nodup) :
    (eraseBody w i).filter (fun b => decide (b.owner = some lid)) = [] := by
  induction w with
  | nil => simp at hf
  | cons b rest ih =>
    by_cases hown : b.owner = some lid
    · rw [List.filter_cons_of_pos (by simp [hown])] at hf
      simp only [List.map_cons, List.cons.injEq] at hf
      obtain ⟨hbid, hrest⟩ := hf
      have hre : rest.filter (fun b => decide (b.owner = some lid)) = [] :=
        List.map_eq_nil_iff.mp hrest
      rw [eraseBody, if_pos hbid]
      exact hre
    · rw [List.filter_cons_of_neg (by simp [hown])] at hf
      have hnd' : (b.id :: rest.map Body.id).Nodup := by
        rw [List.map_cons] at hnd; exact hnd
      rw [eraseBody]
      by_cases hbid : b.id = i
      · exfalso
        have hmem : i ∈ (rest.filter
            (fun b => decide (b.owner = some lid))).map Body.id := by
          rw [hf]; exact List.mem_singleton.mpr rfl
        have hmem2 : i ∈ rest.map Body.id := by
          obtain ⟨b2, hb2, hid⟩ := List.mem_map.mp hmem
          exact List.mem_map.mpr ⟨b2, List.mem_of_mem_filter hb2, hid⟩
        exact (List.nodup_cons.mp hnd').1 (hbid ▸ hmem2)
      · rw [if_neg hbid, List.filter_cons_of_neg (by simp [hown])]
        exact ih hf (List.nodup_cons.mp hnd').2

/-- C2: after updateLineEndpoint on a line whose (unique) registered body is
its current body, the physics world contains exactly one body owned by that
line — the old body was removed and the new one added — and that body's
geometry (centre, and the difference vector determining length and angle)
matches the new endpoints. -/
theorem updateLineEndpoint_body_swap (st : EMState) (lid : ℕ) (l : LineObj)
    (ep : Endpoint) (x y : ℚ)
    (hl : st.lineHeap[lid]? = some l)
    (hone : (st.world.filter (fun b => decide (b.owner = some lid))).map
        Body.id = [l.bodyId])
    (hnd : (st.world.map Body.id).Nodup) :
    ∃ b : Body,
      (updateLineEndpoint lid ep x y st).world.filter
          (fun b => decide (b.owner = some lid)) = [b] ∧
      ((ep = .start →
          b.kind = .rect ∧ b.cx = (x + l.x2) / 2 ∧ b.cy = (y + l.y2) / 2 ∧
          b.dx = l.x2 - x ∧ b.dy = l.y2 - y) ∧
       (ep = .stop →
          b.kind = .rect ∧ b.cx = (l.x1 + x) / 2 ∧ b.cy = (l.y1 + y) / 2 ∧
          b.dx = x - l.x1 ∧ b.dy = y - l.y1)) := by
  have hkill := filter_owner_eraseBody st.world lid l.bodyId hone hnd
  cases ep with
  | start =>
    refine ⟨mkRectBody lid st.nextBodyId x y l.x2 l.y2, ?_, ?_⟩
    · show (updateLineEndpoint lid .start x y st).world.filter _ = _
      unfold updateLineEndpoint
      rw [hl]
      unfold updateLinePosition
      rw [hl]
      simp only [addBody, List.filter_append, hkill, List.nil_append]
      rw [List.filter_cons_of_pos (by simp [mkRectBody])]
      rfl
    · constructor
      · intro hep
        exact ⟨rfl, rfl, rfl, rfl, rfl⟩
      · intro hep
        exact Endpoint.noConfusion hep
  | stop =>
    refine ⟨mkRectBody lid st.nextBodyId l.x1 l.y1 x y, ?_, ?_⟩
    · show (updateLineEndpoint lid .stop x y st).world.filter _ = _
      unfold updateLineEndpoint
      rw [hl]
      unfold updateLinePosition
      rw [hl]
      simp only [addBody, List.filter_append, hkill, List.nil_append]
      rw [List.filter_cons_of_pos (by simp [mkRectBody])]
      rfl
    · constructor
      · intro hep
        exact Endpoint.noConfusion hep
      · intro hep
        exact ⟨rfl, rfl, rfl, rfl, rfl⟩

/-- Witness for C2 on the one-line manager, moving the start endpoint of
the line (0,0)-(100,0) to (50,60). -/
theorem updateLineEndpoint_body_swap_witness :
    ((addLine 0 0 100 0 emptyEM).2.lineHeap[0]?
        = some { x1 := 0, y1 := 0, x2 := 100, y2 := 0, bodyId := 0 } ∧
     ((addLine 0 0 100 0 emptyEM).2.world.filter
        (fun b => decide (b.owner = some 0))).map Body.id = [0] ∧
     ((addLine 0 0 100 0 emptyEM).2.world.map Body.id).Nodup) ∧
    (∃ b : Body,
      (updateLineEndpoint 0 .start 50 60 (addLine 0 0 100 0 emptyEM).2).world.filter
          (fun b => decide (b.owner = some 0)) = [b] ∧
      ((Endpoint.start = .start →
          b.kind = .rect ∧ b.cx = (50 + 100) / 2 ∧ b.cy = (60 + 0) / 2 ∧
          b.dx = 100 - 50 ∧ b.dy = 0 - 60) ∧
       (Endpoint.start = .stop →
          b.kind = .rect ∧ b.cx = (0 + 50) / 2 ∧ b.cy = (0 + 60) / 2 ∧
          b.dx = 50 - 0 ∧ b.dy = 60 - 0))) := by
  have hst : (addLine 0 0 100 0 emptyEM).2
      = { lineHeap := [{ x1 := 0, y1 := 0, x2 := 100, y2 := 0, bodyId := 0 }],
          lines := [0], balls := [], spawnerHeap := [], spawners := [],
          world := [{ id := 0, owner := some 0, kind := .rect, cx := 50,
                      cy := 0, dx := 100, dy := 0 }], nextBodyId := 1 } := by
    norm_num [addLine, emptyEM, hypotLt, minLineLength, addBody, mkRectBody]
  refine ⟨⟨by rw [hst]; rfl, by rw [hst]; rfl, by rw [hst]; simp⟩, ?_⟩
  exact updateLineEndpoint_body_swap (addLine 0 0 100 0 emptyEM).2 0
    { x1 := 0, y1 := 0, x2 := 100, y2 := 0, bodyId := 0 } .start 50 60
    (by rw [hst]; rfl) (by rw [hst]; rfl) (by rw [hst]; simp)

/-- Whether findNearestEndpoint's per-line test hits either endpoint of the
line referenced by `lid` (start tested first, then end). -/
def endpointHit (st : EMState) (x y thr : ℚ) (lid : ℕ) : Bool :=
  match st.lineHeap[lid]? with
  | none => false
  | some l =>
    distanceToEndpointLt l x y .start thr || distanceToEndpointLt l x y .stop thr

/-- Whether the start endpoint of the line referenced by `lid` is hit. -/
def startHit (st : EMState) (x y thr : ℚ) (lid : ℕ) : Bool :=
  match st.lineHeap[lid]? with
  | none => false
  | some l => distanceToEndpointLt l x y .start thr

/-- First-match characterisation of List.find?: it returns `some a` exactly
when `a` sits at some index whose earlier indices all fail the test. -/
theorem find?_eq_some_first {α : Type} (p : α → Bool) (l : List α) (a : α) :
    l.find? p = some a ↔
      ∃ i : ℕ, l[i]? = some a ∧ p a = true ∧
        ∀ j : ℕ, j < i → ∀ b, l[j]? = some b → p b = false := by
  induction l with
  | nil => simp
  | cons c t ih =>
    by_cases hc : p c
    · rw [List.find?_cons_of_pos t hc]
      constructor
      · intro h
        cases Option.some.inj h
        exact ⟨0, by simp, hc, fun j hj b => absurd hj (Nat.not_lt_zero j)⟩
      · rintro ⟨i, hget, hpa, hfirst⟩
        cases i with
        | zero =>
          rw [List.getElem?_cons_zero] at hget
          exact hget
        | succ k =>
          have h0 := hfirst 0 (Nat.succ_pos k) c (by simp)
          rw [hc] at h0
          cases h0
    · rw [List.find?_cons_of_neg t hc]
      rw [ih]
      constructor
      · rintro ⟨i, hget, hpa, hfirst⟩
        refine ⟨i + 1, by simpa using hget, hpa, ?_⟩
        intro j hj b hb
        cases j with
        | zero =>
          rw [List.getElem?_cons_zero] at hb
          cases Option.some.inj hb
          exact Bool.eq_false_iff.mpr hc
        | succ k =>
          exact hfirst k (Nat.lt_of_succ_lt_succ hj) b (by simpa using hb)
      · rintro ⟨i, hget, hpa, hfirst⟩
        cases i with
        | zero =>
          rw [List.getElem?_cons_zero] at hget
          cases Option.some.inj hget
          exact absurd hpa hc
        | succ k =>
          refine ⟨k, by simpa using hget, hpa, ?_⟩
          intro j hj b hb
          exact hfirst (j + 1) (Nat.succ_lt_succ hj) b (by simpa using hb)

/-- findNearestLine scans the line collection with List.find?. -/
theorem findNearestLine_eq_find? (x y thr : ℚ) (st : EMState) (l : List ℕ) :
    findNearestLine.go x y thr st l = l.find? (lineHit st x y thr) := by
  induction l with
  | nil => rfl
  | cons a t ih =>
    rw [findNearestLine.go]
    by_cases h : lineHit st x y thr a
    · rw [if_pos h, List.find?_cons_of_pos t h]
    · rw [if_neg h, List.find?_cons_of_neg t h, ih]

/-- findNearestSpawner scans the spawner collection with List.find?. -/
theorem findNearestSpawner_eq_find? (x y thr : ℚ) (st : EMState) (l : List ℕ) :
    findNearestSpawner.go x y thr st l = l.find? (spawnerHit st x y thr) := by
  induction l with
  | nil => rfl
  | cons a t ih =>
    rw [findNearestSpawner.go]
    by_cases h : spawnerHit st x y thr a
    · rw [if_pos h, List.find?_cons_of_pos t h]
    · rw [if_neg h, List.find?_cons_of_neg t h, ih]

/-- findNearestEndpoint is List.find? on the either-endpoint test, paired
with the endpoint choice (start preferred) for the found line. -/
theorem findNearestEndpoint_eq_find? (x y thr : ℚ) (st : EMState) (l : List ℕ) :
    findNearestEndpoint.go x y thr st l
      = (l.find? (endpointHit st x y thr)).map
          (fun lid => (lid, if startHit st x y thr lid
                            then Endpoint.start else Endpoint.stop)) := by
  induction l with
  | nil => rfl
  | cons a t ih =>
    rw [findNearestEndpoint.go]
    rcases hh : st.lineHeap[a]? with _ | l0
    · have hhit : endpointHit st x y thr a = false := by
        unfold endpointHit; rw [hh]
      rw [List.find?_cons_of_neg t (by simp [hhit]), ih]
    · by_cases hs : distanceToEndpointLt l0 x y .start thr
      · have hhit : endpointHit st x y thr a = true := by
          unfold endpointHit; rw [hh]; simp [hs]
        have hstart : startHit st x y thr a = true := by
          unfold startHit; rw [hh]; exact hs
        rw [List.find?_cons_of_pos t hhit]
        simp [hs, hstart]
      · by_cases he : distanceToEndpointLt l0 x y .stop thr
        · have hhit : endpointHit st x y thr a = true := by
            unfold endpointHit; rw [hh]; simp [he]
          have hstart : startHit st x y thr a = false := by
            unfold startHit; rw [hh]; simpa using hs
          rw [List.find?_cons_of_pos t hhit]
          simp [hs, he, hstart]
        · have hhit : endpointHit st x y thr a = false := by
            unfold endpointHit; rw [hh]; simp [hs, he]
          rw [List.find?_cons_of_neg t (by simp [hhit]), ih]
          simp [hs, he]

/-- C7: each spatial query returns the first entity in insertion (iteration)
order whose distance test is within the threshold — characterised by "there
is an index holding the result, the result passes the test, and every
earlier index fails the test", which is first-match, not
smallest-distance — and returns null exactly when no entity passes.
For findNearestEndpoint the start endpoint of a line is tested before its
end endpoint. -/
theorem findNearest_first_match_spec (st : EMState) (x y thr : ℚ) :
    (∀ lid, findNearestLine x y thr st = some lid ↔
       ∃ i : ℕ, st.lines[i]? = some lid ∧ lineHit st x y thr lid = true ∧
         ∀ j : ℕ, j < i → ∀ lid2, st.lines[j]? = some lid2 →
           lineHit st x y thr lid2 = false) ∧
    (findNearestLine x y thr st = none ↔
       ∀ lid ∈ st.lines, ¬ lineHit st x y thr lid) ∧
    (∀ lid ep, findNearestEndpoint x y thr st = some (lid, ep) ↔
       (∃ i : ℕ, st.lines[i]? = some lid ∧ endpointHit st x y thr lid = true ∧
         ∀ j : ℕ, j < i → ∀ lid2, st.lines[j]? = some lid2 →
           endpointHit st x y thr lid2 = false) ∧
       ep = (if startHit st x y thr lid then Endpoint.start else Endpoint.stop)) ∧
    (findNearestEndpoint x y thr st = none ↔
       ∀ lid ∈ st.lines, ¬ endpointHit st x y thr lid) ∧
    (∀ sid, findNearestSpawner x y thr st = some sid ↔
       ∃ i : ℕ, st.spawners[i]? = some sid ∧ spawnerHit st x y thr sid = true ∧
         ∀ j : ℕ, j < i → ∀ sid2, st.spawners[j]? = some sid2 →
           spawnerHit st x y thr sid2 = false) ∧
    (findNearestSpawner x y thr st = none ↔
       ∀ sid ∈ st.spawners, ¬ spawnerHit st x y thr sid) := by
  refine ⟨?_, ?_, ?_, ?_, ?_, ?_⟩
  · intro lid
    rw [show findNearestLine x y thr st = findNearestLine.go x y thr st st.lines
          from rfl,
        findNearestLine_eq_find?, find?_eq_some_first]
  · rw [show findNearestLine x y thr st = findNearestLine.go x y thr st st.lines
          from rfl,
        findNearestLine_eq_find?, List.find?_eq_none]
  · intro lid ep
    rw [show findNearestEndpoint x y thr st
          = findNearestEndpoint.go x y thr st st.lines from rfl,
        findNearestEndpoint_eq_find?]
    constructor
    · intro h
      obtain ⟨lid0, hf, hfx⟩ := Option.map_eq_some'.mp h
      have h1 : lid0 = lid := congrArg Prod.fst hfx
      subst h1
      have h2 : ep = (if startHit st x y thr lid0
          then Endpoint.start else Endpoint.stop) := (congrArg Prod.snd hfx).symm
      exact ⟨(find?_eq_some_first _ _ _).mp hf, h2⟩
    · rintro ⟨hfirst, rfl⟩
      rw [(find?_eq_some_first (endpointHit st x y thr) st.lines lid).mpr hfirst]
      rfl
  · rw [show findNearestEndpoint x y thr st
          = findNearestEndpoint.go x y thr st st.lines from rfl,
        findNearestEndpoint_eq_find?]
    rw [Option.map_eq_none', List.find?_eq_none]
  · intro sid
    rw [show findNearestSpawner x y thr st
          = findNearestSpawner.go x y thr st st.spawners from rfl,
        findNearestSpawner_eq_find?, find?_eq_some_first]
  · rw [show findNearestSpawner x y thr st
          = findNearestSpawner.go x y thr st st.spawners from rfl,
        findNearestSpawner_eq_find?, List.find?_eq_none]

/-- Characterisation of one updateSpawners iteration: either nothing happens
to the balls and spawner heap, or exactly one ball is appended and the
processed spawner's lastSpawn is set to now. -/
theorem updateOneSpawner_spec (now : ℚ) (s : EMState) (a : ℕ) :
    ((updateOneSpawner now s a).spawnerHeap = s.spawnerHeap ∧
     (updateOneSpawner now s a).balls = s.balls) ∨
    (∃ sp, s.spawnerHeap[a]? = some sp ∧
      now - sp.lastSpawn > effectiveInterval sp ∧
      (updateOneSpawner now s a).spawnerHeap
        = s.spawnerHeap.set a { sp with lastSpawn := now } ∧
      (updateOneSpawner now s a).balls
        = s.balls ++ [{ x := sp.x, y := sp.y, bodyId := s.nextBodyId }]) := by
  unfold updateOneSpawner
  rcases h : s.spawnerHeap[a]? with _ | sp
  · exact Or.inl ⟨rfl, rfl⟩
  · dsimp only
    by_cases hd : now - sp.lastSpawn > effectiveInterval sp
    · rw [if_pos hd]
      exact Or.inr ⟨sp, rfl, hd, rfl, rfl⟩
    · rw [if_neg hd]
      exact Or.inl ⟨rfl, rfl⟩

/-- An updateSpawners iteration never touches the spawner collection list. -/
theorem updateOneSpawner_spawners (now : ℚ) (s : EMState) (a : ℕ) :
    (updateOneSpawner now s a).spawners = s.spawners := by
  unfold updateOneSpawner
  rcases h : s.spawnerHeap[a]? with _ | sp
  · rfl
  · dsimp only
    by_cases hd : now - sp.lastSpawn > effectiveInterval sp
    · rw [if_pos hd]; rfl
    · rw [if_neg hd]

/-- Over a whole updateSpawners fold, at most one ball per processed spawner
slot is created. -/
theorem foldSpawners_balls_le (now : ℚ) (ids : List ℕ) : ∀ s : EMState,
    (ids.foldl (updateOneSpawner now) s).balls.length
      ≤ s.balls.length + ids.length := by
  induction ids with
  | nil => intro s; simp
  | cons a t ih =>
    intro s
    have hstep : (updateOneSpawner now s a).balls.length ≤ s.balls.length + 1 := by
      rcases updateOneSpawner_spec now s a with ⟨_, hb⟩ | ⟨sp, _, _, _, hb⟩
      · rw [hb]; omega
      · rw [hb]; simp
    calc (t.foldl (updateOneSpawner now) (updateOneSpawner now s a)).balls.length
        ≤ (updateOneSpawner now s a).balls.length + t.length := ih _
      _ ≤ s.balls.length + 1 + t.length := by omega
      _ = s.balls.length + (a :: t).length := by simp [Nat.add_assoc, Nat.add_comm 1]

/-- Over a whole updateSpawners fold, every spawner heap entry is either
untouched or has exactly its lastSpawn replaced by now. -/
theorem foldSpawners_heap (now : ℚ) (ids : List ℕ) : ∀ (s : EMState) (j : ℕ),
    (ids.foldl (updateOneSpawner now) s).spawnerHeap[j]? = s.spawnerHeap[j]? ∨
    ∃ sp, s.spawnerHeap[j]? = some sp ∧
      (ids.foldl (updateOneSpawner now) s).spawnerHeap[j]?
        = some { sp with lastSpawn := now } := by
  induction ids with
  | nil => intro s j; exact Or.inl rfl
  | cons a t ih =>
    intro s j
    have hstep : (updateOneSpawner now s a).spawnerHeap[j]? = s.spawnerHeap[j]? ∨
        ∃ sp, s.spawnerHeap[j]? = some sp ∧
          (updateOneSpawner now s a).spawnerHeap[j]?
            = some { sp with lastSpawn := now } := by
      rcases updateOneSpawner_spec now s a with ⟨hh, _⟩ | ⟨sp, hsp, _, hh, _⟩
      · exact Or.inl (by rw [hh])
      · by_cases hj : a = j
        · subst hj
          refine Or.inr ⟨sp, hsp, ?_⟩
          rw [hh]
          exact List.getElem?_set_self
            (by exact (List.getElem?_eq_some_iff.mp hsp).1)
        · exact Or.inl (by rw [hh]; exact List.getElem?_set_ne hj)
    rcases ih (updateOneSpawner now s a) j with h1 | ⟨sp1, hsp1, h1⟩
    · rw [List.foldl_cons, h1]
      exact hstep
    · rcases hstep with h2 | ⟨sp2, hsp2, h2⟩
      · rw [h2] at hsp1
        exact Or.inr ⟨sp1, hsp1, by rw [List.foldl_cons, h1]⟩
      · rw [h2] at hsp1
        cases Option.some.inj hsp1
        exact Or.inr ⟨sp2, hsp2, by rw [List.foldl_cons, h1]⟩

/-- Over a whole updateSpawners fold, every processed spawner that was due
when the call started ends the call with lastSpawn = now. -/
theorem foldSpawners_due (now : ℚ) (ids : List ℕ) : ∀ (s : EMState),
    ∀ sid ∈ ids, ∀ sp, s.spawnerHeap[sid]? = some sp →
      now - sp.lastSpawn > effectiveInterval sp →
      ∃ spF, (ids.foldl (updateOneSpawner now) s).spawnerHeap[sid]? = some spF ∧
        spF.lastSpawn = now := by
  induction ids with
  | nil => intro s sid h; cases h
  | cons a t ih =>
    intro s sid hmem sp hsp hdue
    rw [List.foldl_cons]
    set s1 := updateOneSpawner now s a with hs1
    have hslot : s1.spawnerHeap[sid]? = s.spawnerHeap[sid]? ∨
        s1.spawnerHeap[sid]? = some { sp with lastSpawn := now } := by
      rcases updateOneSpawner_spec now s a with ⟨hh, _⟩ | ⟨spa, hspa, _, hh, _⟩
      · exact Or.inl (by rw [hs1, hh])
      · by_cases hj : a = sid
        · subst hj
          rw [hsp] at hspa
          cases Option.some.inj hspa
          refine Or.inr ?_
          rw [hs1, hh]
          exact List.getElem?_set_self (List.getElem?_eq_some_iff.mp hsp).1
        · exact Or.inl (by rw [hs1, hh]; exact List.getElem?_set_ne hj)
    rcases List.mem_cons.mp hmem with rfl | hmem2
    · -- the processed head itself was due, so its step fires
      have hfired : s1.spawnerHeap[sid]? = some { sp with lastSpawn := now } := by
        rw [hs1]
        unfold updateOneSpawner
        rw [hsp]
        dsimp only
        rw [if_pos hdue]
        exact List.getElem?_set_self
          (show sid < (addBall sp.x sp.y s).spawnerHeap.length from
            (List.getElem?_eq_some_iff.mp hsp).1)
      rcases foldSpawners_heap now t s1 sid with h1 | ⟨sp1, hsp1, h1⟩
      · exact ⟨_, by rw [h1, hfired], rfl⟩
      · rw [hfired] at hsp1
        cases Option.some.inj hsp1
        exact ⟨_, h1, rfl⟩
    · rcases hslot with h1 | h1
      · exact ih s1 sid hmem2 sp (by rw [h1, hsp]) hdue
      · rcases foldSpawners_heap now t s1 sid with h2 | ⟨sp2, hsp2, h2⟩
        · exact ⟨_, by rw [h2, h1], rfl⟩
        · rw [h1] at hsp2
          cases Option.some.inj hsp2
          exact ⟨_, h2, rfl⟩

/-- C10: a single updateSpawners(now) call creates at most one ball per
spawner in the collection regardless of how much time elapsed (no multi-ball
catch-up burst), every spawner heap entry is either untouched or has exactly
its lastSpawn set to now, and every spawner in the collection that was due
(now - lastSpawn > its effective interval) ends the call with
lastSpawn = now. -/
theorem updateSpawners_single_tick (now : ℚ) (st : EMState) :
    (updateSpawners now st).balls.length
        ≤ st.balls.length + st.spawners.length ∧
    (∀ j : ℕ, (updateSpawners now st).spawnerHeap[j]? = st.spawnerHeap[j]? ∨
      ∃ sp, st.spawnerHeap[j]? = some sp ∧
        (updateSpawners now st).spawnerHeap[j]?
          = some { sp with lastSpawn := now }) ∧
    (∀ sid ∈ st.spawners, ∀ sp, st.spawnerHeap[sid]? = some sp →
      now - sp.lastSpawn > effectiveInterval sp →
      ∃ spF, (updateSpawners now st).spawnerHeap[sid]? = some spF ∧
        spF.lastSpawn = now) := by
  refine ⟨?_, ?_, ?_⟩
  · exact foldSpawners_balls_le now st.spawners st
  · intro j
    exact foldSpawners_heap now st.spawners st j
  · intro sid hmem sp hsp hdue
    exact foldSpawners_due now st.spawners st sid hmem sp hsp hdue

/-- Repeated updateSpawners calls at the given sequence of times. -/
def runUpdates (ts : List ℚ) (st : EMState) : EMState :=
  ts.foldl (fun s t => updateSpawners t s) st

/-- Pure trace of a single spawner under one updateSpawners call at time t:
the pair is (lastSpawn, number of balls emitted so far). -/
def spStep (I : ℚ) (p : ℚ × ℕ) (t : ℚ) : ℚ × ℕ :=
  if t - p.1 > I then (t, p.2 + 1) else p

/-- Pure trace of a single spawner under a sequence of update times. -/
def spRun (I : ℚ) (ts : List ℚ) (p : ℚ × ℕ) : ℚ × ℕ :=
  ts.foldl (spStep I) p

/-- Proof scaffolding: the family of manager states holding exactly one
spawner (as produced by addSpawner on a fresh manager, then evolved by
updateSpawners calls). -/
def oneSpawnerState (x y last I : ℚ) (balls : List Ball) (world : List Body)
    (nb : ℕ) : EMState :=
  { lineHeap := [], lines := [], balls := balls,
    spawnerHeap := [{ x := x, y := y, lastSpawn := last, interval := I }],
    spawners := [0], world := world, nextBodyId := nb }

/-- One updateSpawners call on a one-spawner state follows spStep. -/
theorem updateSpawners_oneSpawner (t x y last I : ℚ) (hI : I ≠ 0)
    (b : List Ball) (w : List Body) (nb : ℕ) :
    updateSpawners t (oneSpawnerState x y last I b w nb)
      = if t - last > I
        then oneSpawnerState x y t I (b ++ [{ x := x, y := y, bodyId := nb }])
              (w ++ [mkBallBody nb x y]) (nb + 1)
        else oneSpawnerState x y last I b w nb := by
  show (updateOneSpawner t (oneSpawnerState x y last I b w nb) 0) = _
  unfold updateOneSpawner oneSpawnerState
  have heff : effectiveInterval { x := x, y := y, lastSpawn := last, interval := I }
      = I := by
    unfold effectiveInterval
    exact if_neg hI
  simp only [List.getElem?_cons_zero, heff]
  by_cases hd : t - last > I
  · rw [if_pos hd, if_pos hd]
    rfl
  · rw [if_neg hd, if_neg hd]

/-- The emission count of spRun is additive in its accumulator, and the
final lastSpawn does not depend on it. -/
theorem spRun_count_add (I : ℚ) (ts : List ℚ) : ∀ (last : ℚ) (k : ℕ),
    (spRun I ts (last, k)).1 = (spRun I ts (last, 0)).1 ∧
    (spRun I ts (last, k)).2 = k + (spRun I ts (last, 0)).2 := by
  induction ts with
  | nil => intro last k; exact ⟨rfl, rfl⟩
  | cons t ts ih =>
    intro last k
    show (spRun I ts (spStep I (last, k) t)).1 = (spRun I ts (spStep I (last, 0) t)).1 ∧
      (spRun I ts (spStep I (last, k) t)).2 = k + (spRun I ts (spStep I (last, 0) t)).2
    unfold spStep
    by_cases hd : t - last > I
    · rw [if_pos hd, if_pos hd]
      rcases ih t (k + 1) with ⟨h1, h2⟩
      rcases ih t 1 with ⟨h3, h4⟩
      refine ⟨h1.trans h3.symm, ?_⟩
      rw [h2, h4]
      omega
    · rw [if_neg hd, if_neg hd]
      exact ih last k

/-- The manager's evolution under repeated updateSpawners calls on a
one-spawner state is described exactly by the pure trace spRun. -/
theorem runUpdates_oneSpawner (x y I : ℚ) (hI : I ≠ 0) (ts : List ℚ) :
    ∀ (last : ℚ) (b : List Ball) (w : List Body) (nb : ℕ),
    (runUpdates ts (oneSpawnerState x y last I b w nb)).balls.length
        = b.length + (spRun I ts (last, 0)).2 ∧
    (runUpdates ts (oneSpawnerState x y last I b w nb)).spawnerHeap
        = [{ x := x, y := y, lastSpawn := (spRun I ts (last, 0)).1,
             interval := I }] := by
  induction ts with
  | nil => intro last b w nb; exact ⟨rfl, rfl⟩
  | cons t ts ih =>
    intro last b w nb
    have hrw : runUpdates (t :: ts) (oneSpawnerState x y last I b w nb)
        = runUpdates ts (updateSpawners t (oneSpawnerState x y last I b w nb)) :=
      rfl
    rw [hrw, updateSpawners_oneSpawner t x y last I hI b w nb]
    have hsp : spRun I (t :: ts) (last, 0) = spRun I ts (spStep I (last, 0) t) :=
      rfl
    by_cases hd : t - last > I
    · rw [if_pos hd]
      rcases ih t (b ++ [{ x := x, y := y, bodyId := nb }])
          (w ++ [mkBallBody nb x y]) (nb + 1) with ⟨h1, h2⟩
      rw [hsp]
      have hstep : spStep I (last, 0) t = (t, 1) := by unfold spStep; rw [if_pos hd]
      rw [hstep]
      rcases spRun_count_add I ts t 1 with ⟨h3, h4⟩
      refine ⟨?_, ?_⟩
      · rw [h1, h4]
        simp
        omega
      · rw [h2, h3]
    · rw [if_neg hd]
      rw [hsp]
      have hstep : spStep I (last, 0) t = (last, 0) := by unfold spStep; rw [if_neg hd]
      rw [hstep]
      exact ih last b w nb

/-- Before any update time exceeds the interval, a fresh trace emits nothing. -/
theorem spRun_all_le (I : ℚ) (ts : List ℚ) (h : ∀ t ∈ ts, t ≤ I) :
    spRun I ts (0, 0) = (0, 0) := by
  induction ts with
  | nil => rfl
  | cons t ts ih =>
    have ht : t ≤ I := h t (List.mem_cons_self t ts)
    have hstep : spStep I (0, 0) t = (0, 0) := by
      unfold spStep
      rw [if_neg (by simp; linarith)]
    show spRun I ts (spStep I (0, 0) t) = (0, 0)
    rw [hstep]
    exact ih (fun u hu => h u (List.mem_cons_of_mem t hu))

/-- Invariant: once the trace has emitted k ≥ 1 balls, its lastSpawn exceeds
k·I and stays below every bound on the update times. -/
theorem spRun_invariant (I T : ℚ) (ts : List ℚ)
    (hT : ∀ t ∈ ts, t ≤ T) : ∀ p : ℚ × ℕ,
    ((p.2 = 0 ∧ p.1 = 0) ∨ (1 ≤ p.2 ∧ (p.2 : ℚ) * I < p.1 ∧ p.1 ≤ T)) →
    (((spRun I ts p).2 = 0 ∧ (spRun I ts p).1 = 0) ∨
     (1 ≤ (spRun I ts p).2 ∧ ((spRun I ts p).2 : ℚ) * I < (spRun I ts p).1 ∧
      (spRun I ts p).1 ≤ T)) := by
  induction ts with
  | nil => intro p hp; exact hp
  | cons t ts ih =>
    intro p hp
    have ht : t ≤ T := hT t (List.mem_cons_self t ts)
    have hT2 : ∀ u ∈ ts, u ≤ T := fun u hu => hT u (List.mem_cons_of_mem t hu)
    show (((spRun I ts (spStep I p t)).2 = 0 ∧ (spRun I ts (spStep I p t)).1 = 0) ∨ _)
    refine ih hT2 (spStep I p t) ?_
    unfold spStep
    by_cases hd : t - p.1 > I
    · rw [if_pos hd]
      rcases hp with ⟨hk, hl⟩ | ⟨hk, hkI, hl⟩
      · refine Or.inr ⟨by omega, ?_, ht⟩
        rw [hk]
        rw [hl] at hd
        push_cast
        linarith
      · refine Or.inr ⟨by omega, ?_, ht⟩
        push_cast
        have hexp : ((p.2 : ℚ) + 1) * I = (p.2 : ℚ) * I + I := by ring
        rw [hexp]
        linarith
    · rw [if_neg hd]
      exact hp

/-- C5 (amended): the code initialises lastSpawn to 0 (not to the creation
time, which it does not record), so for a spawner freshly created with
interval I > 0, under any sequence of updateSpawners calls:
(a) if every update time is ≤ I the spawner has produced no ball — the first
ball appears at the first update time exceeding I, regardless of when the
spawner was created — and
(b) consecutive emissions are separated by more than I, so if k ≥ 1 balls
have been produced and every update time is ≤ T, then k·I < T.
The original "exactly floor((t-t0)/I) balls by time t, none before t0+I"
is false (see the counterexample): production is independent of t0 and
depends on the update-call times. -/
theorem spawner_timing_from_zero (x y I T : ℚ) (ts : List ℚ)
    (hI : 0 < I) (hT : ∀ t ∈ ts, t ≤ T) :
    ((∀ t ∈ ts, t ≤ I) →
      (runUpdates ts (addSpawner x y (some I) emptyEM).2).balls = []) ∧
    (1 ≤ (runUpdates ts (addSpawner x y (some I) emptyEM).2).balls.length →
      ((runUpdates ts (addSpawner x y (some I) emptyEM).2).balls.length : ℚ) * I
        < T) := by
  have hst0 : (addSpawner x y (some I) emptyEM).2
      = oneSpawnerState x y 0 I [] [] 0 := by
    unfold addSpawner oneSpawnerState emptyEM
    simp [hI.ne']
  rw [hst0]
  rcases runUpdates_oneSpawner x y I hI.ne' ts 0 [] [] 0 with ⟨h1, _⟩
  constructor
  · intro hle
    rw [spRun_all_le I ts hle] at h1
    simp only [List.length_nil, Nat.add_zero] at h1
    exact List.length_eq_zero.mp h1
  · intro hk
    rw [h1] at hk ⊢
    simp only [List.length_nil, Nat.zero_add] at hk ⊢
    have hinv := spRun_invariant I T ts hT (0, 0) (Or.inl ⟨rfl, rfl⟩)
    rcases hinv with ⟨hz, _⟩ | ⟨_, hkI, hle⟩
    · omega
    · linarith

/-- Witness for the amended C5 at interval 10 and update times 5, 12, 25:
two balls are produced and 2·10 < 25. -/
theorem spawner_timing_from_zero_witness :
    ((0 : ℚ) < 10 ∧ ∀ t ∈ [(5 : ℚ), 12, 25], t ≤ (25 : ℚ)) ∧
    (((∀ t ∈ [(5 : ℚ), 12, 25], t ≤ (10 : ℚ)) →
      (runUpdates [5, 12, 25] (addSpawner 1 2 (some 10) emptyEM).2).balls = []) ∧
    (1 ≤ (runUpdates [5, 12, 25] (addSpawner 1 2 (some 10) emptyEM).2).balls.length →
      ((runUpdates [5, 12, 25]
          (addSpawner 1 2 (some 10) emptyEM).2).balls.length : ℚ) * 10 < 25)) := by
  constructor
  · refine ⟨by norm_num, ?_⟩
    intro t ht
    simp only [List.mem_cons, List.not_mem_nil, or_false] at ht
    rcases ht with rfl | rfl | rfl <;> norm_num
  · exact spawner_timing_from_zero 1 2 10 25 [5, 12, 25] (by norm_num)
      (by intro t ht
          simp only [List.mem_cons, List.not_mem_nil, or_false] at ht
          rcases ht with rfl | rfl | rfl <;> norm_num)

/-- The endpoint data of a line object. -/
def lineQuad (l : LineObj) : ℚ × ℚ × ℚ × ℚ := (l.x1, l.y1, l.x2, l.y2)

/-- The position of a spawner object. -/
def spawnerPt (sp : SpawnerObj) : ℚ × ℚ := (sp.x, sp.y)

/-- The affine remap scaleMultiple applies to a line's endpoint data. -/
def scaleQuad (oldB newB : Bounds) (sX sY : ℚ) (q : ℚ × ℚ × ℚ × ℚ) :
    ℚ × ℚ × ℚ × ℚ :=
  (newB.minX + (q.1 - oldB.minX) * sX,
   newB.minY + (q.2.1 - oldB.minY) * sY,
   newB.minX + (q.2.2.1 - oldB.minX) * sX,
   newB.minY + (q.2.2.2 - oldB.minY) * sY)

/-- The affine remap scaleMultiple applies to a spawner's position. -/
def scalePt (oldB newB : Bounds) (sX sY : ℚ) (p : ℚ × ℚ) : ℚ × ℚ :=
  (newB.minX + (p.1 - oldB.minX) * sX, newB.minY + (p.2 - oldB.minY) * sY)

/-- Apply f to the slot i of a list, when it exists. -/
def setWith {α : Type} (f : α → α) (m : List α) (i : ℕ) : List α :=
  match m[i]? with
  | none => m
  | some v => m.set i (f v)

/-- Apply f at each slot named by ids, one id at a time. -/
def foldSet {α : Type} (f : α → α) (ids : List ℕ) (m : List α) : List α :=
  ids.foldl (setWith f) m

/-- Slotwise description of setWith. -/
theorem getElem?_setWith {α : Type} (f : α → α) (m : List α) (i j : ℕ) :
    (setWith f m i)[j]? = if i = j then (m[j]?).map f else m[j]? := by
  unfold setWith
  rcases h : m[i]? with _ | v
  · dsimp only
    by_cases hij : i = j
    · subst hij
      rw [if_pos rfl, h]
      rfl
    · rw [if_neg hij]
  · dsimp only
    by_cases hij : i = j
    · subst hij
      rw [if_pos rfl, h]
      rw [List.getElem?_set_self (List.getElem?_eq_some_iff.mp h).1]
      rfl
    · rw [if_neg hij]
      exact List.getElem?_set_ne hij

/-- Slotwise description of foldSet: slot j gets f applied once per
occurrence of j in ids. -/
theorem getElem?_foldSet {α : Type} (f : α → α) (ids : List ℕ) :
    ∀ (m : List α) (j : ℕ),
    (foldSet f ids m)[j]? = (m[j]?).map f^[ids.count j] := by
  induction ids with
  | nil =>
    intro m j
    show m[j]? = (m[j]?).map f^[List.count j []]
    rw [List.count_nil]
    cases m[j]? <;> rfl
  | cons a t ih =>
    intro m j
    show (foldSet f t (setWith f m a))[j]? = (m[j]?).map f^[(a :: t).count j]
    rw [ih (setWith f m a) j, getElem?_setWith]
    by_cases hij : a = j
    · subst hij
      rw [if_pos rfl, Option.map_map, List.count_cons_self,
        Function.iterate_succ]
    · rw [if_neg hij, List.count_cons_of_ne (Ne.symm hij)]

/-- Iterating a left inverse cancels the same number of iterations. -/
theorem iterate_cancel_of_leftInv {α : Type} (f g : α → α)
    (h : ∀ x, g (f x) = x) : ∀ (c : ℕ) (x : α), g^[c] (f^[c] x) = x := by
  intro c
  induction c with
  | zero => intro x; rfl
  | succ n ih =>
    intro x
    rw [Function.iterate_succ_apply g n, Function.iterate_succ_apply' f n x, h]
    exact ih x

/-- foldSet with a left inverse over the same id list restores the list. -/
theorem foldSet_cancel {α : Type} (f g : α → α) (h : ∀ x, g (f x) = x)
    (ids : List ℕ) (m : List α) :
    foldSet g ids (foldSet f ids m) = m := by
  apply List.ext_getElem?
  intro j
  rw [getElem?_foldSet, getElem?_foldSet]
  rcases m[j]? with _ | v
  · rfl
  · exact congrArg some (iterate_cancel_of_leftInv f g h (ids.count j) v)

/-- updateLinePosition only touches the line heap, the world and the body
counter. -/
theorem updateLinePosition_fields (lid : ℕ) (x1 y1 x2 y2 : ℚ) (st : EMState) :
    (updateLinePosition lid x1 y1 x2 y2 st).lines = st.lines ∧
    (updateLinePosition lid x1 y1 x2 y2 st).spawners = st.spawners ∧
    (updateLinePosition lid x1 y1 x2 y2 st).spawnerHeap = st.spawnerHeap ∧
    (updateLinePosition lid x1 y1 x2 y2 st).balls = st.balls := by
  unfold updateLinePosition
  rcases h : st.lineHeap[lid]? with _ | l
  · exact ⟨rfl, rfl, rfl, rfl⟩
  · exact ⟨rfl, rfl, rfl, rfl⟩

/-- The line heap after updateLinePosition on a live reference. -/
theorem updateLinePosition_heap_of_some (lid : ℕ) (x1 y1 x2 y2 : ℚ)
    (st : EMState) (l : LineObj) (h : st.lineHeap[lid]? = some l) :
    (updateLinePosition lid x1 y1 x2 y2 st).lineHeap
      = st.lineHeap.set lid ⟨x1, y1, x2, y2, st.nextBodyId⟩ := by
  unfold updateLinePosition
  rw [h]

/-- The line loop of scaleMultiple acts on the endpoint data as foldSet of
the affine remap, and leaves collections and the spawner heap alone. -/
theorem scaleLinesGo_spec (oldB newB : Bounds) (sX sY : ℚ) (lids : List ℕ) :
    ∀ st : EMState,
    (scaleLinesGo oldB newB sX sY lids st).lineHeap.map lineQuad
        = foldSet (scaleQuad oldB newB sX sY) lids (st.lineHeap.map lineQuad) ∧
    (scaleLinesGo oldB newB sX sY lids st).lines = st.lines ∧
    (scaleLinesGo oldB newB sX sY lids st).spawners = st.spawners ∧
    (scaleLinesGo oldB newB sX sY lids st).spawnerHeap = st.spawnerHeap := by
  induction lids with
  | nil => intro st; exact ⟨rfl, rfl, rfl, rfl⟩
  | cons a t ih =>
    intro st
    have hgo : scaleLinesGo oldB newB sX sY (a :: t) st
        = scaleLinesGo oldB newB sX sY t
            (scaleLineStep oldB newB sX sY st a) := rfl
    have hfold : foldSet (scaleQuad oldB newB sX sY) (a :: t)
          (st.lineHeap.map lineQuad)
        = foldSet (scaleQuad oldB newB sX sY) t
            (setWith (scaleQuad oldB newB sX sY) (st.lineHeap.map lineQuad) a) :=
      rfl
    rw [hgo, hfold]
    rcases ih (scaleLineStep oldB newB sX sY st a) with ⟨h1, h2, h3, h4⟩
    have hstep :
        (scaleLineStep oldB newB sX sY st a).lineHeap.map lineQuad
            = setWith (scaleQuad oldB newB sX sY)
                (st.lineHeap.map lineQuad) a ∧
        (scaleLineStep oldB newB sX sY st a).lines = st.lines ∧
        (scaleLineStep oldB newB sX sY st a).spawners = st.spawners ∧
        (scaleLineStep oldB newB sX sY st a).spawnerHeap = st.spawnerHeap := by
      unfold scaleLineStep setWith
      rcases h : st.lineHeap[a]? with _ | l
      · rw [List.getElem?_map, h]
        exact ⟨rfl, rfl, rfl, rfl⟩
      · rw [List.getElem?_map, h]
        dsimp only
        rcases updateLinePosition_fields a
            (newB.minX + (l.x1 - oldB.minX) * sX)
            (newB.minY + (l.y1 - oldB.minY) * sY)
            (newB.minX + (l.x2 - oldB.minX) * sX)
            (newB.minY + (l.y2 - oldB.minY) * sY) st with ⟨f1, f2, f3, _⟩
      
        refine ⟨?_, f1, f2, f3⟩
        rw [updateLinePosition_heap_of_some a _ _ _ _ st l h, List.map_set]
        rfl
    rcases hstep with ⟨s1, s2, s3, s4⟩
    exact ⟨by rw [h1, s1], by rw [h2, s2], by rw [h3, s3], by rw [h4, s4]⟩

/-- The spawner loop of scaleMultiple acts on the positions as foldSet of
the affine remap, and leaves everything else alone. -/
theorem scaleSpawnersGo_spec (oldB newB : Bounds) (sX sY : ℚ)
    (sids : List ℕ) : ∀ st : EMState,
    (scaleSpawnersGo oldB newB sX sY sids st).spawnerHeap.map spawnerPt
        = foldSet (scalePt oldB newB sX sY) sids
            (st.spawnerHeap.map spawnerPt) ∧
    (scaleSpawnersGo oldB newB sX sY sids st).lines = st.lines ∧
    (scaleSpawnersGo oldB newB sX sY sids st).spawners = st.spawners ∧
    (scaleSpawnersGo oldB newB sX sY sids st).lineHeap = st.lineHeap := by
  induction sids with
  | nil => intro st; exact ⟨rfl, rfl, rfl, rfl⟩
  | cons a t ih =>
    intro st
    have hgo : scaleSpawnersGo oldB newB sX sY (a :: t) st
        = scaleSpawnersGo oldB newB sX sY t
            (scaleSpawnerStep oldB newB sX sY st a) := rfl
    have hfold : foldSet (scalePt oldB newB sX sY) (a :: t)
          (st.spawnerHeap.map spawnerPt)
        = foldSet (scalePt oldB newB sX sY) t
            (setWith (scalePt oldB newB sX sY)
              (st.spawnerHeap.map spawnerPt) a) := rfl
    rw [hgo, hfold]
    rcases ih (scaleSpawnerStep oldB newB sX sY st a) with ⟨h1, h2, h3, h4⟩
    have hstep :
        (scaleSpawnerStep oldB newB sX sY st a).spawnerHeap.map spawnerPt
            = setWith (scalePt oldB newB sX sY)
                (st.spawnerHeap.map spawnerPt) a ∧
        (scaleSpawnerStep oldB newB sX sY st a).lines = st.lines ∧
        (scaleSpawnerStep oldB newB sX sY st a).spawners = st.spawners ∧
        (scaleSpawnerStep oldB newB sX sY st a).lineHeap = st.lineHeap := by
      unfold scaleSpawnerStep setWith
      rcases h : st.spawnerHeap[a]? with _ | sp
      · rw [List.getElem?_map, h]
        exact ⟨rfl, rfl, rfl, rfl⟩
      · rw [List.getElem?_map, h]
        dsimp only
        refine ⟨?_, rfl, rfl, rfl⟩
        rw [List.map_set]
        rfl
    rcases hstep with ⟨s1, s2, s3, s4⟩
    exact ⟨by rw [h1, s1], by rw [h2, s2], by rw [h3, s3], by rw [h4, s4]⟩

/-- The affine remap from bounds B back to bounds A undoes the remap from A
to B, when both boxes have nonzero width and height (endpoint data). -/
theorem scaleQuad_cancel (A B : Bounds)
    (hAw : A.maxX - A.minX ≠ 0) (hAh : A.maxY - A.minY ≠ 0)
    (hBw : B.maxX - B.minX ≠ 0) (hBh : B.maxY - B.minY ≠ 0)
    (q : ℚ × ℚ × ℚ × ℚ) :
    scaleQuad B A ((A.maxX - A.minX) / (B.maxX - B.minX))
        ((A.maxY - A.minY) / (B.maxY - B.minY))
      (scaleQuad A B ((B.maxX - B.minX) / (A.maxX - A.minX))
        ((B.maxY - B.minY) / (A.maxY - A.minY)) q) = q := by
  obtain ⟨x1, y1, x2, y2⟩ := q
  unfold scaleQuad
  dsimp only
  refine Prod.ext ?_ (Prod.ext ?_ (Prod.ext ?_ ?_)) <;>
    · field_simp
      ring

/-- The affine remap from bounds B back to bounds A undoes the remap from A
to B, when both boxes have nonzero width and height (point data). -/
theorem scalePt_cancel (A B : Bounds)
    (hAw : A.maxX - A.minX ≠ 0) (hAh : A.maxY - A.minY ≠ 0)
    (hBw : B.maxX - B.minX ≠ 0) (hBh : B.maxY - B.minY ≠ 0)
    (p : ℚ × ℚ) :
    scalePt B A ((A.maxX - A.minX) / (B.maxX - B.minX))
        ((A.maxY - A.minY) / (B.maxY - B.minY))
      (scalePt A B ((B.maxX - B.minX) / (A.maxX - A.minX))
        ((B.maxY - B.minY) / (A.maxY - A.minY)) p) = p := by
  obtain ⟨x, y⟩ := p
  unfold scalePt
  dsimp only
  refine Prod.ext ?_ ?_ <;>
    · field_simp
      ring

/-- C6: scaleMultiple from bounds A to bounds B followed by scaleMultiple
from B back to A restores every line's endpoints and every spawner's
position exactly (over exact arithmetic), for any boxes with positive width
and height; the line and spawner collections are unchanged throughout. -/
theorem scaleMultiple_round_trip (st : EMState) (lineIds spawnerIds : List ℕ)
    (A B : Bounds) (hAw : A.minX < A.maxX) (hAh : A.minY < A.maxY)
    (hBw : B.minX < B.maxX) (hBh : B.minY < B.maxY) :
    ((scaleMultiple lineIds spawnerIds B A
        (scaleMultiple lineIds spawnerIds A B st)).lineHeap.map lineQuad
       = st.lineHeap.map lineQuad) ∧
    ((scaleMultiple lineIds spawnerIds B A
        (scaleMultiple lineIds spawnerIds A B st)).spawnerHeap.map spawnerPt
       = st.spawnerHeap.map spawnerPt) ∧
    (scaleMultiple lineIds spawnerIds B A
        (scaleMultiple lineIds spawnerIds A B st)).lines = st.lines ∧
    (scaleMultiple lineIds spawnerIds B A
        (scaleMultiple lineIds spawnerIds A B st)).spawners = st.spawners := by
  have hAw' : A.maxX - A.minX ≠ 0 := sub_ne_zero.mpr (ne_of_gt hAw)
  have hAh' : A.maxY - A.minY ≠ 0 := sub_ne_zero.mpr (ne_of_gt hAh)
  have hBw' : B.maxX - B.minX ≠ 0 := sub_ne_zero.mpr (ne_of_gt hBw)
  have hBh' : B.maxY - B.minY ≠ 0 := sub_ne_zero.mpr (ne_of_gt hBh)
  have e1 : scaleMultiple lineIds spawnerIds A B st
      = scaleSpawnersGo A B ((B.maxX - B.minX) / (A.maxX - A.minX))
          ((B.maxY - B.minY) / (A.maxY - A.minY)) spawnerIds
          (scaleLinesGo A B ((B.maxX - B.minX) / (A.maxX - A.minX))
            ((B.maxY - B.minY) / (A.maxY - A.minY)) lineIds st) := rfl
  have e2 : ∀ s, scaleMultiple lineIds spawnerIds B A s
      = scaleSpawnersGo B A ((A.maxX - A.minX) / (B.maxX - B.minX))
          ((A.maxY - A.minY) / (B.maxY - B.minY)) spawnerIds
          (scaleLinesGo B A ((A.maxX - A.minX) / (B.maxX - B.minX))
            ((A.maxY - A.minY) / (B.maxY - B.minY)) lineIds s) := fun s => rfl
  rw [e1, e2]
  obtain ⟨l1, l2, l3, l4⟩ := scaleLinesGo_spec A B
    ((B.maxX - B.minX) / (A.maxX - A.minX))
    ((B.maxY - B.minY) / (A.maxY - A.minY)) lineIds st
  obtain ⟨p1, p2, p3, p4⟩ := scaleSpawnersGo_spec A B
    ((B.maxX - B.minX) / (A.maxX - A.minX))
    ((B.maxY - B.minY) / (A.maxY - A.minY)) spawnerIds
    (scaleLinesGo A B ((B.maxX - B.minX) / (A.maxX - A.minX))
      ((B.maxY - B.minY) / (A.maxY - A.minY)) lineIds st)
  obtain ⟨l1', l2', l3', l4'⟩ := scaleLinesGo_spec B A
    ((A.maxX - A.minX) / (B.maxX - B.minX))
    ((A.maxY - A.minY) / (B.maxY - B.minY)) lineIds
    (scaleSpawnersGo A B ((B.maxX - B.minX) / (A.maxX - A.minX))
      ((B.maxY - B.minY) / (A.maxY - A.minY)) spawnerIds
      (scaleLinesGo A B ((B.maxX - B.minX) / (A.maxX - A.minX))
        ((B.maxY - B.minY) / (A.maxY - A.minY)) lineIds st))
  obtain ⟨p1', p2', p3', p4'⟩ := scaleSpawnersGo_spec B A
    ((A.maxX - A.minX) / (B.maxX - B.minX))
    ((A.maxY - A.minY) / (B.maxY - B.minY)) spawnerIds
    (scaleLinesGo B A ((A.maxX - A.minX) / (B.maxX - B.minX))
      ((A.maxY - A.minY) / (B.maxY - B.minY)) lineIds
      (scaleSpawnersGo A B ((B.maxX - B.minX) / (A.maxX - A.minX))
        ((B.maxY - B.minY) / (A.maxY - A.minY)) spawnerIds
        (scaleLinesGo A B ((B.maxX - B.minX) / (A.maxX - A.minX))
          ((B.maxY - B.minY) / (A.maxY - A.minY)) lineIds st)))
  refine ⟨?_, ?_, ?_, ?_⟩
  · rw [p4', l1', p4, l1]
    exact foldSet_cancel _ _
      (scaleQuad_cancel A B hAw' hAh' hBw' hBh') lineIds _
  · rw [p1', l4', p1, l4]
    exact foldSet_cancel _ _
      (scalePt_cancel A B hAw' hAh' hBw' hBh') spawnerIds _
  · rw [p2', l2', p2, l2]
  · rw [p3', l3', p3, l3]

/-- Witness for C6: a one-line, one-spawner manager scaled from the box
(0,0)-(100,100) to (0,0)-(50,200) and back is restored. -/
theorem scaleMultiple_round_trip_witness :
    (({ minX := 0, minY := 0, maxX := 100, maxY := 100 } : Bounds).minX
        < ({ minX := 0, minY := 0, maxX := 100, maxY := 100 } : Bounds).maxX ∧
     ({ minX := 0, minY := 0, maxX := 50, maxY := 200 } : Bounds).minX
        < ({ minX := 0, minY := 0, maxX := 50, maxY := 200 } : Bounds).maxX) ∧
    (((scaleMultiple [0] [0] { minX := 0, minY := 0, maxX := 50, maxY := 200 }
          { minX := 0, minY := 0, maxX := 100, maxY := 100 }
        (scaleMultiple [0] [0]
          { minX := 0, minY := 0, maxX := 100, maxY := 100 }
          { minX := 0, minY := 0, maxX := 50, maxY := 200 }
          (addSpawner 7 8 none (addLine 0 0 100 0 emptyEM).2).2)).lineHeap.map
            lineQuad
       = ((addSpawner 7 8 none (addLine 0 0 100 0 emptyEM).2).2).lineHeap.map
            lineQuad) ∧
    ((scaleMultiple [0] [0] { minX := 0, minY := 0, maxX := 50, maxY := 200 }
          { minX := 0, minY := 0, maxX := 100, maxY := 100 }
        (scaleMultiple [0] [0]
          { minX := 0, minY := 0, maxX := 100, maxY := 100 }
          { minX := 0, minY := 0, maxX := 50, maxY := 200 }
          (addSpawner 7 8 none (addLine 0 0 100 0 emptyEM).2).2)).spawnerHeap.map
            spawnerPt
       = ((addSpawner 7 8 none (addLine 0 0 100 0 emptyEM).2).2).spawnerHeap.map
            spawnerPt) ∧
    (scaleMultiple [0] [0] { minX := 0, minY := 0, maxX := 50, maxY := 200 }
          { minX := 0, minY := 0, maxX := 100, maxY := 100 }
        (scaleMultiple [0] [0]
          { minX := 0, minY := 0, maxX := 100, maxY := 100 }
          { minX := 0, minY := 0, maxX := 50, maxY := 200 }
          (addSpawner 7 8 none (addLine 0 0 100 0 emptyEM).2).2)).lines
       = ((addSpawner 7 8 none (addLine 0 0 100 0 emptyEM).2).2).lines ∧
    (scaleMultiple [0] [0] { minX := 0, minY := 0, maxX := 50, maxY := 200 }
          { minX := 0, minY := 0, maxX := 100, maxY := 100 }
        (scaleMultiple [0] [0]
          { minX := 0, minY := 0, maxX := 100, maxY := 100 }
          { minX := 0, minY := 0, maxX := 50, maxY := 200 }
          (addSpawner 7 8 none (addLine 0 0 100 0 emptyEM).2).2)).spawners
       = ((addSpawner 7 8 none (addLine 0 0 100 0 emptyEM).2).2).spawners) := by
  constructor
  · exact ⟨by norm_num, by norm_num⟩
  · exact scaleMultiple_round_trip
      (addSpawner 7 8 none (addLine 0 0 100 0 emptyEM).2).2 [0] [0]
      { minX := 0, minY := 0, maxX := 100, maxY := 100 }
      { minX := 0, minY := 0, maxX := 50, maxY := 200 }
      (by norm_num) (by norm_num) (by norm_num) (by norm_num)

/-- A discrete add-entity action, as issued by the interaction controller
through history.execute: the data an AddLineCommand / AddSpawnerCommand is
constructed from. -/
inductive AddReq where
  | line (x1 y1 x2 y2 : ℚ)
  | spawner (x y : ℚ)
deriving DecidableEq, Repr

/-- The freshly constructed command object for an add request
(AddLineCommand / AddSpawnerCommand constructors set this.line /
this.spawner to null). -/
def reqCmd : AddReq → Cmd
  | .line x1 y1 x2 y2 => .addLine x1 y1 x2 y2 none
  | .spawner x y => .addSpawner x y none

/-- The add request a command object carries, when it is an add command. -/
def cmdReq : Cmd → Option AddReq
  | .addLine x1 y1 x2 y2 _ => some (.line x1 y1 x2 y2)
  | .addSpawner x y _ => some (.spawner x y)
  | _ => none

/-- Running a list of add requests through history.execute in order. -/
def execReqs (reqs : List AddReq) (p : CommandHistory × EMState) :
    CommandHistory × EMState :=
  reqs.foldl (fun q r => histExecute (reqCmd r) q.1 q.2) p

/-- Well-formedness of a manager state: every collection reference is a live
heap index and every world body id was allocated.  This holds in every state
reachable from a fresh manager. -/
def WF (st : EMState) : Prop :=
  (∀ lid ∈ st.lines, lid < st.lineHeap.length) ∧
  (∀ sid ∈ st.spawners, sid < st.spawnerHeap.length) ∧
  (∀ b ∈ st.world, b.id < st.nextBodyId)

/-- Two states that agree on all collections and the world, the second
merely holding extra (garbage) heap objects and a further-advanced body
counter — the relation between a state and the state after an
execute-then-undo round trip. -/
def HeapExt (st st2 : EMState) : Prop :=
  st2.lines = st.lines ∧ st2.spawners = st.spawners ∧ st2.balls = st.balls ∧
  st2.world = st.world ∧
  (∃ e, st2.lineHeap = st.lineHeap ++ e) ∧
  (∃ e, st2.spawnerHeap = st.spawnerHeap ++ e) ∧
  st.nextBodyId ≤ st2.nextBodyId

theorem heapExt_refl (st : EMState) : HeapExt st st :=
  ⟨rfl, rfl, rfl, rfl, ⟨[], by simp⟩, ⟨[], by simp⟩, le_refl _⟩

/-- Collection line coordinates only depend on the part of the heap a
well-formed state can reach, so heap extension preserves them. -/
theorem lineCoords_of_heapExt (st st2 : EMState) (h : HeapExt st st2)
    (hwf : WF st) : lineCoords st2 = lineCoords st := by
  obtain ⟨hl, -, -, -, ⟨e, he⟩, -, -⟩ := h
  unfold lineCoords
  rw [hl, he]
  apply List.filterMap_congr
  intro lid hmem
  rw [List.getElem?_append_left (hwf.1 lid hmem)]

/-- Heap extension preserves the collection spawner coordinates. -/
theorem spawnerCoords_of_heapExt (st st2 : EMState) (h : HeapExt st st2)
    (hwf : WF st) : spawnerCoords st2 = spawnerCoords st := by
  obtain ⟨-, hs, -, -, -, ⟨e, he⟩, -⟩ := h
  unfold spawnerCoords
  rw [hs, he]
  apply List.filterMap_congr
  intro sid hmem
  rw [List.getElem?_append_left (hwf.2.1 sid hmem)]

/-- Heap extension preserves well-formedness. -/
theorem wf_of_heapExt (st st2 : EMState) (h : HeapExt st st2) (hwf : WF st) :
    WF st2 := by
  obtain ⟨hl, hs, -, hw, ⟨e, he⟩, ⟨e2, he2⟩, hnb⟩ := h
  refine ⟨?_, ?_, ?_⟩
  · intro lid hmem
    rw [hl] at hmem
    calc lid < st.lineHeap.length := hwf.1 lid hmem
      _ ≤ st2.lineHeap.length := by rw [he]; simp
  · intro sid hmem
    rw [hs] at hmem
    calc sid < st.spawnerHeap.length := hwf.2.1 sid hmem
      _ ≤ st2.spawnerHeap.length := by rw [he2]; simp
  · intro b hmem
    rw [hw] at hmem
    exact lt_of_lt_of_le (hwf.2.2 b hmem) hnb

/-- The geometric data an accepted add request contributes to the line
collection (nothing, for a rejected too-short line). -/
def reqLineObs : AddReq → List (ℚ × ℚ × ℚ × ℚ)
  | .line x1 y1 x2 y2 =>
    if hypotLt (x2 - x1) (y2 - y1) minLineLength then [] else [(x1, y1, x2, y2)]
  | .spawner _ _ => []

/-- The position data an add request contributes to the spawner collection. -/
def reqSpawnerObs : AddReq → List (ℚ × ℚ)
  | .line _ _ _ _ => []
  | .spawner x y => [(x, y)]

/-- Line data contributed by a whole request sequence. -/
def reqsLineObs (reqs : List AddReq) : List (ℚ × ℚ × ℚ × ℚ) :=
  reqs.foldr (fun r acc => reqLineObs r ++ acc) []

/-- Spawner data contributed by a whole request sequence. -/
def reqsSpawnerObs (reqs : List AddReq) : List (ℚ × ℚ) :=
  reqs.foldr (fun r acc => reqSpawnerObs r ++ acc) []

/-- addLine on a too-short segment, explicitly. -/
theorem addLine_reject (x1 y1 x2 y2 : ℚ) (st : EMState)
    (h : hypotLt (x2 - x1) (y2 - y1) minLineLength = true) :
    addLine x1 y1 x2 y2 st = (none, st) := by
  unfold addLine
  rw [if_pos h]

/-- addLine on a long-enough segment, explicitly. -/
theorem addLine_accept (x1 y1 x2 y2 : ℚ) (st : EMState)
    (h : hypotLt (x2 - x1) (y2 - y1) minLineLength = false) :
    addLine x1 y1 x2 y2 st
      = (some st.lineHeap.length,
         { st with
           lineHeap := st.lineHeap ++ [⟨x1, y1, x2, y2, st.nextBodyId⟩],
           lines := st.lines ++ [st.lineHeap.length],
           world := addBody st.world
             (mkRectBody st.lineHeap.length st.nextBodyId x1 y1 x2 y2),
           nextBodyId := st.nextBodyId + 1 }) := by
  unfold addLine
  rw [if_neg (by simp [h])]

/-- Executing an add command (whatever its mutable field currently holds)
appends exactly its contribution to the collections, leaves the balls alone,
and preserves well-formedness. -/
theorem cmdExecute_addCmd_obs (c : Cmd) (r : AddReq) (st : EMState)
    (h : cmdReq c = some r) (hwf : WF st) :
    lineCoords (cmdExecute c st).2 = lineCoords st ++ reqLineObs r ∧
    spawnerCoords (cmdExecute c st).2 = spawnerCoords st ++ reqSpawnerObs r ∧
    (cmdExecute c st).2.balls = st.balls ∧
    WF (cmdExecute c st).2 := by
  cases c with
  | addLine x1 y1 x2 y2 f =>
    cases Option.some.inj h
    by_cases hshort : hypotLt (x2 - x1) (y2 - y1) minLineLength
    · have he : cmdExecute (.addLine x1 y1 x2 y2 f) st
          = (.addLine x1 y1 x2 y2 none, st) := by
        unfold cmdExecute
        dsimp only
        rw [addLine_reject x1 y1 x2 y2 st hshort]
      rw [he]
      refine ⟨?_, by simp [reqSpawnerObs], rfl, hwf⟩
      unfold reqLineObs
      dsimp only
      rw [if_pos hshort]
      simp
    · have hshort' : hypotLt (x2 - x1) (y2 - y1) minLineLength = false :=
        Bool.eq_false_iff.mpr hshort
      have he : cmdExecute (.addLine x1 y1 x2 y2 f) st
          = (.addLine x1 y1 x2 y2 (some st.lineHeap.length),
             { st with
               lineHeap := st.lineHeap ++ [⟨x1, y1, x2, y2, st.nextBodyId⟩],
               lines := st.lines ++ [st.lineHeap.length],
               world := addBody st.world
                 (mkRectBody st.lineHeap.length st.nextBodyId x1 y1 x2 y2),
               nextBodyId := st.nextBodyId + 1 }) := by
        unfold cmdExecute
        dsimp only
        rw [addLine_accept x1 y1 x2 y2 st hshort']
      rw [he]
      refine ⟨?_, ?_, rfl, ?_, ?_, ?_⟩
      · unfold reqLineObs
        dsimp only
        rw [if_neg (by simp [hshort'])]
        unfold lineCoords
        dsimp only
        rw [List.filterMap_append]
        congr 1
        · apply List.filterMap_congr
          intro lid hmem
          rw [List.getElem?_append_left (hwf.1 lid hmem)]
        · rw [show ([st.lineHeap.length].filterMap (fun lid =>
              ((st.lineHeap ++ [(⟨x1, y1, x2, y2, st.nextBodyId⟩ : LineObj)])[lid]?).map
                (fun l => (l.x1, l.y1, l.x2, l.y2)))) =
              (((st.lineHeap ++ [(⟨x1, y1, x2, y2, st.nextBodyId⟩ : LineObj)])[st.lineHeap.length]?).map
                (fun l => (l.x1, l.y1, l.x2, l.y2))).toList from by
            simp [List.filterMap_cons]]
          rw [List.getElem?_concat_length]
          rfl
      · unfold spawnerCoords reqSpawnerObs
        simp
      · intro lid hmem
        dsimp only at hmem ⊢
        rw [List.mem_append] at hmem
        rw [List.length_append]
        rcases hmem with hm | hm
        · have := hwf.1 lid hm
          simp only [List.length_cons, List.length_nil]
          omega
        · rw [List.mem_singleton] at hm
          subst hm
          simp
      · intro sid hmem
        exact hwf.2.1 sid hmem
      · intro b hmem
        dsimp only at hmem ⊢
        unfold addBody at hmem
        rw [List.mem_append] at hmem
        rcases hmem with hm | hm
        · exact lt_trans (hwf.2.2 b hm) (Nat.lt_succ_self _)
        · rw [List.mem_singleton] at hm
          subst hm
          exact Nat.lt_succ_self _
  | addSpawner x y f =>
    cases Option.some.inj h
    have he : cmdExecute (.addSpawner x y f) st
        = (.addSpawner x y (some st.spawnerHeap.length),
           { st with
             spawnerHeap := st.spawnerHeap
               ++ [⟨x, y, 0, spawnerIntervalMs⟩],
             spawners := st.spawners ++ [st.spawnerHeap.length] }) := rfl
    rw [he]
    refine ⟨?_, ?_, rfl, ?_, ?_, ?_⟩
    · unfold lineCoords reqLineObs
      simp
    · unfold spawnerCoords reqSpawnerObs
      dsimp only
      rw [List.filterMap_append]
      congr 1
      · apply List.filterMap_congr
        intro sid hmem
        rw [List.getElem?_append_left (hwf.2.1 sid hmem)]
      · rw [show ([st.spawnerHeap.length].filterMap (fun sid =>
            ((st.spawnerHeap ++ [(⟨x, y, 0, spawnerIntervalMs⟩ : SpawnerObj)])[sid]?).map
              (fun sp => (sp.x, sp.y)))) =
            (((st.spawnerHeap ++ [(⟨x, y, 0, spawnerIntervalMs⟩ : SpawnerObj)])[st.spawnerHeap.length]?).map
              (fun sp => (sp.x, sp.y))).toList from by
          simp [List.filterMap_cons]]
        rw [List.getElem?_concat_length]
        rfl
    · intro lid hmem
      exact hwf.1 lid hmem
    · intro sid hmem
      dsimp only at hmem ⊢
      rw [List.mem_append] at hmem
      rw [List.length_append]
      rcases hmem with hm | hm
      · have := hwf.2.1 sid hm
        simp only [List.length_cons, List.length_nil]
        omega
      · rw [List.mem_singleton] at hm
        subst hm
        simp
    · intro b hmem
      exact hwf.2.2 b hmem
  | removeLine a b c d e => cases h
  | moveLineEndpoint a b c d e f => cases h
  | moveLine a b c d e f g i j => cases h
  | removeSpawner a b c => cases h
  | clearAll a b => cases h

/-- history.execute's state component is the command's execute. -/
theorem histExecute_state (c : Cmd) (h : CommandHistory) (st : EMState) :
    (histExecute c h st).2 = (cmdExecute c st).2 := by
  unfold histExecute
  rcases e : cmdExecute c st with ⟨c1, st1⟩
  dsimp only

/-- The command a request constructs carries that request. -/
theorem cmdReq_reqCmd (r : AddReq) : cmdReq (reqCmd r) = some r := by
  cases r <;> rfl

/-- Executing a request sequence appends exactly the accepted data to the
collections, leaves the balls alone, and preserves well-formedness. -/
theorem execReqs_coords : ∀ (reqs : List AddReq) (h : CommandHistory)
    (st : EMState), WF st →
    lineCoords (execReqs reqs (h, st)).2 = lineCoords st ++ reqsLineObs reqs ∧
    spawnerCoords (execReqs reqs (h, st)).2
        = spawnerCoords st ++ reqsSpawnerObs reqs ∧
    (execReqs reqs (h, st)).2.balls = st.balls ∧
    WF (execReqs reqs (h, st)).2 := by
  intro reqs
  induction reqs with
  | nil =>
    intro h st hwf
    refine ⟨?_, ?_, rfl, hwf⟩
    · show lineCoords st = lineCoords st ++ reqsLineObs []
      simp [reqsLineObs]
    · show spawnerCoords st = spawnerCoords st ++ reqsSpawnerObs []
      simp [reqsSpawnerObs]
  | cons r t ih =>
    intro h st hwf
    have hstep : execReqs (r :: t) (h, st)
        = execReqs t (histExecute (reqCmd r) h st) := rfl
    obtain ⟨o1, o2, o3, o4⟩ :=
      cmdExecute_addCmd_obs (reqCmd r) r st (cmdReq_reqCmd r) hwf
    have hs : (histExecute (reqCmd r) h st).2 = (cmdExecute (reqCmd r) st).2 :=
      histExecute_state (reqCmd r) h st
    obtain ⟨i1, i2, i3, i4⟩ := ih (histExecute (reqCmd r) h st).1
      (histExecute (reqCmd r) h st).2 (by rw [hs]; exact o4)
    rw [hstep]
    have hcurry : (histExecute (reqCmd r) h st) =
        ((histExecute (reqCmd r) h st).1, (histExecute (reqCmd r) h st).2) :=
      rfl
    rw [hcurry]
    refine ⟨?_, ?_, ?_, i4⟩
    · rw [i1, hs, o1]
      show _ = lineCoords st ++ (reqLineObs r ++ reqsLineObs t)
      rw [List.append_assoc]
    · rw [i2, hs, o2]
      show _ = spawnerCoords st ++ (reqSpawnerObs r ++ reqsSpawnerObs t)
      rw [List.append_assoc]
    · rw [i3, hs, o3]

/-- history.execute without overflow: the executed command is pushed and the
redo stack cleared. -/
theorem histExecute_no_trunc (c : Cmd) (u rs : List Cmd) (N : ℕ)
    (st : EMState) (h : u.length + 1 ≤ N) :
    histExecute c ⟨u, rs, N⟩ st
      = (⟨u ++ [(cmdExecute c st).1], [], N⟩, (cmdExecute c st).2) := by
  unfold histExecute
  rcases e : cmdExecute c st with ⟨c1, st1⟩
  dsimp only
  rw [if_neg (by simp; omega)]

/-- history.undo on a nonempty stack pops the last command, undoes it and
pushes the (possibly updated) command onto the redo stack. -/
theorem histUndo_concat (u rs : List Cmd) (N : ℕ) (c : Cmd) (st : EMState) :
    histUndo ⟨u ++ [c], rs, N⟩ st
      = (true, ⟨u, rs ++ [(cmdUndo c st).1], N⟩, (cmdUndo c st).2) := by
  unfold histUndo
  rw [show (⟨u ++ [c], rs, N⟩ : CommandHistory).undoStack.getLast? = some c from
    List.getLast?_concat u]
  dsimp only
  rcases e : cmdUndo c st with ⟨c1, st1⟩
  dsimp only
  rw [List.dropLast_concat]

/-- history.redo on a nonempty redo stack pops the last command, re-executes
it and pushes it onto the undo stack. -/
theorem histRedo_concat (u rs : List Cmd) (N : ℕ) (c : Cmd) (st : EMState) :
    histRedo ⟨u, rs ++ [c], N⟩ st
      = (true, ⟨u ++ [(cmdExecute c st).1], rs, N⟩, (cmdExecute c st).2) := by
  unfold histRedo
  rw [show (⟨u, rs ++ [c], N⟩ : CommandHistory).redoStack.getLast? = some c from
    List.getLast?_concat rs]
  dsimp only
  rcases e : cmdExecute c st with ⟨c1, st1⟩
  dsimp only
  rw [List.dropLast_concat]

/-- The last of n+1 undo calls happens after the first n. -/
theorem undoN_succ_outer : ∀ (n : ℕ) (p : CommandHistory × EMState),
    undoN (n + 1) p = undoStep (undoN n p) := by
  intro n
  induction n with
  | zero => intro p; rfl
  | succ m ih =>
    intro p
    show undoN (m + 1) (undoStep p) = undoStep (undoN (m + 1) p)
    rw [ih (undoStep p)]
    rfl

/-- The undo of an add command never changes the command object. -/
theorem cmdUndo_fst_of_addCmd (c : Cmd) (st : EMState)
    (h : (cmdReq c).isSome) : (cmdUndo c st).1 = c := by
  cases c with
  | addLine x1 y1 x2 y2 f =>
    cases f with
    | none => rfl
    | some lid => rfl
  | addSpawner x y f =>
    cases f with
    | none => rfl
    | some sid => rfl
  | removeLine a b c d e => cases h
  | moveLineEndpoint a b c d e f => cases h
  | moveLine a b c d e f g i j => cases h
  | removeSpawner a b c => cases h
  | clearAll a b => cases h

/-- AddLineCommand.execute on a too-short segment. -/
theorem cmdExecute_addLine_reject (x1 y1 x2 y2 : ℚ) (f : Option ℕ)
    (st : EMState) (h : hypotLt (x2 - x1) (y2 - y1) minLineLength = true) :
    cmdExecute (.addLine x1 y1 x2 y2 f) st = (.addLine x1 y1 x2 y2 none, st) := by
  unfold cmdExecute
  dsimp only
  rw [addLine_reject x1 y1 x2 y2 st h]

/-- AddLineCommand.execute on an accepted segment. -/
theorem cmdExecute_addLine_accept (x1 y1 x2 y2 : ℚ) (f : Option ℕ)
    (st : EMState) (h : hypotLt (x2 - x1) (y2 - y1) minLineLength = false) :
    cmdExecute (.addLine x1 y1 x2 y2 f) st
      = (.addLine x1 y1 x2 y2 (some st.lineHeap.length),
         { st with
           lineHeap := st.lineHeap ++ [⟨x1, y1, x2, y2, st.nextBodyId⟩],
           lines := st.lines ++ [st.lineHeap.length],
           world := addBody st.world
             (mkRectBody st.lineHeap.length st.nextBodyId x1 y1 x2 y2),
           nextBodyId := st.nextBodyId + 1 }) := by
  unfold cmdExecute
  dsimp only
  rw [addLine_accept x1 y1 x2 y2 st h]

/-- AddSpawnerCommand.execute always succeeds. -/
theorem cmdExecute_addSpawner (x y : ℚ) (f : Option ℕ) (st : EMState) :
    cmdExecute (.addSpawner x y f) st
      = (.addSpawner x y (some st.spawnerHeap.length),
         { st with
           spawnerHeap := st.spawnerHeap ++ [⟨x, y, 0, spawnerIntervalMs⟩],
           spawners := st.spawners ++ [st.spawnerHeap.length] }) := rfl

/-- Removing a freshly appended body restores the world. -/
theorem eraseBody_append_of_fresh (w : List Body) (b : Body)
    (h : ∀ x ∈ w, x.id ≠ b.id) : eraseBody (w ++ [b]) b.id = w := by
  induction w with
  | nil =>
    show eraseBody (b :: []) b.id = []
    simp [eraseBody]
  | cons a rest ih =>
    show eraseBody (a :: (rest ++ [b])) b.id = a :: rest
    simp only [eraseBody, if_neg (h a (List.mem_cons_self a rest))]
    rw [ih (fun x hx => h x (List.mem_cons_of_mem a hx))]

/-- Erasing a fresh element appended to a list restores the list. -/
theorem erase_append_fresh {l : List ℕ} {a : ℕ} (h : a ∉ l) :
    (l ++ [a]).erase a = l := by
  rw [List.erase_append_right [a] h, List.erase_cons_head, List.append_nil]

/-- The executed add command still carries its request. -/
theorem cmdReq_cmdExecute_reqCmd (r : AddReq) (st : EMState) :
    cmdReq (cmdExecute (reqCmd r) st).1 = some r := by
  cases r with
  | line x1 y1 x2 y2 =>
    by_cases hshort : hypotLt (x2 - x1) (y2 - y1) minLineLength
    · rw [show reqCmd (.line x1 y1 x2 y2) = .addLine x1 y1 x2 y2 none from rfl,
        cmdExecute_addLine_reject x1 y1 x2 y2 none st hshort]
      rfl
    · rw [show reqCmd (.line x1 y1 x2 y2) = .addLine x1 y1 x2 y2 none from rfl,
        cmdExecute_addLine_accept x1 y1 x2 y2 none st
          (Bool.eq_false_iff.mpr hshort)]
      rfl
  | spawner x y => rfl

/-- Undoing an executed add command, possibly after further activity that
only extended the heaps, takes the state back to a heap extension of where
it started: the added entity is removed again and nothing else changes. -/
theorem cmdUndo_cancel (r : AddReq) (st st2 : EMState) (hwf : WF st)
    (hext : HeapExt (cmdExecute (reqCmd r) st).2 st2) :
    HeapExt st (cmdUndo (cmdExecute (reqCmd r) st).1 st2).2 := by
  cases r with
  | line x1 y1 x2 y2 =>
    by_cases hshort : hypotLt (x2 - x1) (y2 - y1) minLineLength
    · rw [show reqCmd (.line x1 y1 x2 y2) = .addLine x1 y1 x2 y2 none from rfl,
        cmdExecute_addLine_reject x1 y1 x2 y2 none st hshort] at hext ⊢
      exact hext
    · have hshort' := Bool.eq_false_iff.mpr hshort
      rw [show reqCmd (.line x1 y1 x2 y2) = .addLine x1 y1 x2 y2 none from rfl,
        cmdExecute_addLine_accept x1 y1 x2 y2 none st hshort'] at hext ⊢
      obtain ⟨hl, hs, hb, hw, ⟨e, he⟩, ⟨e2, he2⟩, hnb⟩ := hext
      dsimp only at hl hs hb hw he he2 hnb
      show HeapExt st (removeLine st.lineHeap.length st2)
      have hfresh : st.lineHeap.length ∉ st.lines :=
        fun hmem => lt_irrefl _ (hwf.1 _ hmem)
      have hlook : st2.lineHeap[st.lineHeap.length]?
          = some ⟨x1, y1, x2, y2, st.nextBodyId⟩ := by
        rw [he,
          List.getElem?_append_left (by simp),
          List.getElem?_concat_length]
      unfold removeLine
      rw [hlook]
      dsimp only
      refine ⟨?_, hs, hb, ?_, ⟨[⟨x1, y1, x2, y2, st.nextBodyId⟩] ++ e, ?_⟩,
        ⟨e2, he2⟩, ?_⟩
      · rw [hl]
        exact erase_append_fresh hfresh
      · rw [hw]
        unfold addBody
        exact eraseBody_append_of_fresh st.world _
          (fun x hx => Nat.ne_of_lt (hwf.2.2 x hx))
      · rw [he, List.append_assoc]
      · show st.nextBodyId ≤ st2.nextBodyId
        omega
  | spawner x y =>
    rw [show reqCmd (.spawner x y) = .addSpawner x y none from rfl,
      cmdExecute_addSpawner x y none st] at hext ⊢
    obtain ⟨hl, hs, hb, hw, ⟨e, he⟩, ⟨e2, he2⟩, hnb⟩ := hext
    dsimp only at hl hs hb hw he he2 hnb
    show HeapExt st (removeSpawner st.spawnerHeap.length st2)
    have hfresh : st.spawnerHeap.length ∉ st.spawners :=
      fun hmem => lt_irrefl _ (hwf.2.1 _ hmem)
    unfold removeSpawner
    refine ⟨hl, ?_, hb, hw, ⟨e, he⟩,
      ⟨[⟨x, y, 0, spawnerIntervalMs⟩] ++ e2, ?_⟩, hnb⟩
    · rw [hs]
      exact erase_append_fresh hfresh
    · rw [he2, List.append_assoc]

/-- Executing a request sequence through a fresh-enough history and then
undoing it the same number of times restores the collections exactly; the
undo stack returns to its base and the redo stack holds the executed
commands. -/
theorem execReqs_undo_cancel (N : ℕ) :
    ∀ (reqs : List AddReq) (u : List Cmd) (st : EMState),
    WF st → u.length + reqs.length ≤ N →
    ∃ (cs : List Cmd) (st1 st2 : EMState),
      execReqs reqs (⟨u, [], N⟩, st) = (⟨u ++ cs, [], N⟩, st1) ∧
      cs.map cmdReq = reqs.map some ∧
      undoN reqs.length (execReqs reqs (⟨u, [], N⟩, st))
        = (⟨u, cs.reverse, N⟩, st2) ∧
      HeapExt st st2 ∧ WF st2 := by
  intro reqs
  induction reqs with
  | nil =>
    intro u st hwf hlen
    exact ⟨[], st, st, by simp [execReqs], rfl, by simp [execReqs, undoN],
      heapExt_refl st, hwf⟩
  | cons r t ih =>
    intro u st hwf hlen
    have hlen1 : u.length + 1 ≤ N := by
      simp only [List.length_cons] at hlen
      omega
    have hexStep := histExecute_no_trunc (reqCmd r) u [] N st hlen1
    have hex1 : execReqs (r :: t) (⟨u, [], N⟩, st)
        = execReqs t (⟨u ++ [(cmdExecute (reqCmd r) st).1], [], N⟩,
            (cmdExecute (reqCmd r) st).2) := by
      show execReqs t (histExecute (reqCmd r) ⟨u, [], N⟩ st) = _
      rw [hexStep]
    have hwf1 : WF (cmdExecute (reqCmd r) st).2 :=
      (cmdExecute_addCmd_obs (reqCmd r) r st (cmdReq_reqCmd r) hwf).2.2.2
    have hlen2 : (u ++ [(cmdExecute (reqCmd r) st).1]).length + t.length ≤ N := by
      simp only [List.length_append, List.length_cons, List.length_nil] at *
      omega
    obtain ⟨cs', st1', st2', hexec', hmap', hundo', hext', hwf2'⟩ :=
      ih (u ++ [(cmdExecute (reqCmd r) st).1]) (cmdExecute (reqCmd r) st).2
        hwf1 hlen2
    refine ⟨(cmdExecute (reqCmd r) st).1 :: cs', st1',
      (cmdUndo (cmdExecute (reqCmd r) st).1 st2').2, ?_, ?_, ?_, ?_, ?_⟩
    · rw [hex1, hexec']
      have hap : (u ++ [(cmdExecute (reqCmd r) st).1]) ++ cs'
          = u ++ ((cmdExecute (reqCmd r) st).1 :: cs') := by simp
      rw [hap]
    · show cmdReq (cmdExecute (reqCmd r) st).1 :: cs'.map cmdReq
        = some r :: t.map some
      rw [cmdReq_cmdExecute_reqCmd r st, hmap']
    · show undoN (t.length + 1) (execReqs (r :: t) (⟨u, [], N⟩, st)) = _
      rw [undoN_succ_outer, hex1, hundo']
      show (histUndo ⟨u ++ [(cmdExecute (reqCmd r) st).1], cs'.reverse, N⟩
        st2').2 = _
      rw [histUndo_concat]
      rw [cmdUndo_fst_of_addCmd _ st2'
        (by rw [cmdReq_cmdExecute_reqCmd r st]; rfl)]
      rw [← List.reverse_cons]
    · exact cmdUndo_cancel r st st2' hwf hext'
    · exact wf_of_heapExt st _ (cmdUndo_cancel r st st2' hwf hext') hwf

/-- Redoing a stack of undone add commands replays exactly their accepted
data onto the collections. -/
theorem redoN_addCmds_coords :
    ∀ (cs : List Cmd) (u rs : List Cmd) (N : ℕ) (st : EMState),
    WF st → (∀ c ∈ cs, (cmdReq c).isSome) →
    lineCoords (redoN cs.length (⟨u, rs ++ cs.reverse, N⟩, st)).2
        = lineCoords st ++ reqsLineObs (cs.filterMap cmdReq) ∧
    spawnerCoords (redoN cs.length (⟨u, rs ++ cs.reverse, N⟩, st)).2
        = spawnerCoords st ++ reqsSpawnerObs (cs.filterMap cmdReq) ∧
    (redoN cs.length (⟨u, rs ++ cs.reverse, N⟩, st)).2.balls = st.balls := by
  intro cs
  induction cs with
  | nil =>
    intro u rs N st hwf hmem
    refine ⟨?_, ?_, rfl⟩
    · show lineCoords st = lineCoords st ++ reqsLineObs ([].filterMap cmdReq)
      simp [reqsLineObs]
    · show spawnerCoords st
        = spawnerCoords st ++ reqsSpawnerObs ([].filterMap cmdReq)
      simp [reqsSpawnerObs]
  | cons c cs' ih =>
    intro u rs N st hwf hmem
    obtain ⟨r, hr⟩ : ∃ r, cmdReq c = some r :=
      Option.isSome_iff_exists.mp (hmem c (List.mem_cons_self c cs'))
    have hstack : rs ++ (c :: cs').reverse = (rs ++ cs'.reverse) ++ [c] := by
      rw [List.reverse_cons, ← List.append_assoc]
    have hstep : redoN (c :: cs').length (⟨u, rs ++ (c :: cs').reverse, N⟩, st)
        = redoN cs'.length
            (redoStep (⟨u, rs ++ (c :: cs').reverse, N⟩, st)) := rfl
    have hredo : redoStep (⟨u, rs ++ (c :: cs').reverse, N⟩, st)
        = (⟨u ++ [(cmdExecute c st).1], rs ++ cs'.reverse, N⟩,
            (cmdExecute c st).2) := by
      show (histRedo ⟨u, rs ++ (c :: cs').reverse, N⟩ st).2 = _
      rw [hstack, histRedo_concat]
    obtain ⟨o1, o2, o3, o4⟩ := cmdExecute_addCmd_obs c r st hr hwf
    obtain ⟨i1, i2, i3⟩ := ih (u ++ [(cmdExecute c st).1]) rs N
      (cmdExecute c st).2 o4 (fun x hx => hmem x (List.mem_cons_of_mem c hx))
    rw [hstep, hredo]
    have hfm : (c :: cs').filterMap cmdReq = r :: cs'.filterMap cmdReq :=
      List.filterMap_cons_some hr
    refine ⟨?_, ?_, ?_⟩
    · rw [i1, o1, hfm]
      show _ = lineCoords st
        ++ (reqLineObs r ++ reqsLineObs (cs'.filterMap cmdReq))
      rw [List.append_assoc]
    · rw [i2, o2, hfm]
      show _ = spawnerCoords st
        ++ (reqSpawnerObs r ++ reqsSpawnerObs (cs'.filterMap cmdReq))
      rw [List.append_assoc]
    · rw [i3, o3]

/-- A list whose image under f is a some-image filters back to the originals. -/
theorem filterMap_eq_of_map_some {α β : Type} (f : α → Option β) :
    ∀ (l : List α) (l2 : List β), l.map f = l2.map some → l.filterMap f = l2 := by
  intro l
  induction l with
  | nil =>
    intro l2 h
    cases l2 with
    | nil => rfl
    | cons b t2 => simp at h
  | cons a t ih =>
    intro l2 h
    cases l2 with
    | nil => simp at h
    | cons b t2 =>
      simp only [List.map_cons, List.cons.injEq] at h
      rw [List.filterMap_cons_some h.1, ih t2 h.2]

/-- C1 (amended): for any sequence of at most maxHistorySize add-entity
commands (AddLineCommand / AddSpawnerCommand, the discrete actions the
controller runs through history.execute) executed on a fresh history over a
well-formed manager state, calling undo() exactly that many times restores
the line, spawner and ball collection contents exactly, and calling redo()
the same number of times reproduces the pre-undo collection contents (same
order, count and geometric data, with new object identities).
The unrestricted claim is false (see the counterexample): a command whose
undo recreates an entity under a new identity (RemoveLineCommand) breaks
the captured object references of commands executed before it, and a
sequence longer than maxHistorySize cannot be fully undone at all. -/
theorem undo_redo_inverse_for_add_commands (reqs : List AddReq)
    (st : EMState) (N : ℕ) (hwf : WF st) (hlen : reqs.length ≤ N) :
    (lineCoords (undoN reqs.length
        (execReqs reqs (freshHistory N, st))).2 = lineCoords st ∧
     spawnerCoords (undoN reqs.length
        (execReqs reqs (freshHistory N, st))).2 = spawnerCoords st ∧
     (undoN reqs.length (execReqs reqs (freshHistory N, st))).2.balls
        = st.balls) ∧
    (lineCoords (redoN reqs.length (undoN reqs.length
        (execReqs reqs (freshHistory N, st)))).2
          = lineCoords (execReqs reqs (freshHistory N, st)).2 ∧
     spawnerCoords (redoN reqs.length (undoN reqs.length
        (execReqs reqs (freshHistory N, st)))).2
          = spawnerCoords (execReqs reqs (freshHistory N, st)).2 ∧
     (redoN reqs.length (undoN reqs.length
        (execReqs reqs (freshHistory N, st)))).2.balls
          = (execReqs reqs (freshHistory N, st)).2.balls) := by
  rw [show freshHistory N = (⟨[], [], N⟩ : CommandHistory) from rfl]
  obtain ⟨cs, st1, st2, hexec, hmap, hundo, hext, hwf2⟩ :=
    execReqs_undo_cancel N reqs [] st hwf (by simpa using hlen)
  have hcslen : cs.length = reqs.length := by
    have h := congrArg List.length hmap
    simpa using h
  have hmem : ∀ c ∈ cs, (cmdReq c).isSome := by
    intro c hc
    have h1 : cmdReq c ∈ reqs.map some := by
      rw [← hmap]
      exact List.mem_map_of_mem cmdReq hc
    obtain ⟨r, _, hr⟩ := List.mem_map.mp h1
    rw [← hr]
    rfl
  have hfm : cs.filterMap cmdReq = reqs := filterMap_eq_of_map_some cmdReq cs
    reqs hmap
  have hl2 : lineCoords st2 = lineCoords st :=
    lineCoords_of_heapExt st st2 hext hwf
  have hs2 : spawnerCoords st2 = spawnerCoords st :=
    spawnerCoords_of_heapExt st st2 hext hwf
  have hb2 : st2.balls = st.balls := hext.2.2.1
  obtain ⟨e1, e2, e3, -⟩ := execReqs_coords reqs ⟨[], [], N⟩ st hwf
  constructor
  · rw [hundo]
    exact ⟨hl2, hs2, hb2⟩
  · rw [hundo]
    have hrs : (⟨[], cs.reverse, N⟩ : CommandHistory)
        = ⟨[], [] ++ cs.reverse, N⟩ := by simp
    rw [hrs, ← hcslen]
    obtain ⟨r1, r2, r3⟩ := redoN_addCmds_coords cs [] [] N st2 hwf2 hmem
    rw [r1, r2, r3, hfm, hl2, hs2, hb2, e1, e2, e3]
    exact ⟨rfl, rfl, rfl⟩

/-- Well-formedness of the fresh manager. -/
theorem wf_emptyEM : WF emptyEM := by
  refine ⟨?_, ?_, ?_⟩ <;> intro a h <;> cases h

/-- Witness for the amended C1: executing a valid AddLine, an AddSpawner and
a rejected (too short) AddLine on a fresh manager, undoing all three, then
redoing all three. -/
theorem undo_redo_inverse_for_add_commands_witness :
    (WF emptyEM ∧
     ([AddReq.line 0 0 100 0, AddReq.spawner 3 4,
       AddReq.line 0 0 0 10] : List AddReq).length ≤ 100) ∧
    ((lineCoords (undoN [AddReq.line 0 0 100 0, AddReq.spawner 3 4,
          AddReq.line 0 0 0 10].length
        (execReqs [AddReq.line 0 0 100 0, AddReq.spawner 3 4,
          AddReq.line 0 0 0 10] (freshHistory 100, emptyEM))).2
        = lineCoords emptyEM ∧
      spawnerCoords (undoN [AddReq.line 0 0 100 0, AddReq.spawner 3 4,
          AddReq.line 0 0 0 10].length
        (execReqs [AddReq.line 0 0 100 0, AddReq.spawner 3 4,
          AddReq.line 0 0 0 10] (freshHistory 100, emptyEM))).2
        = spawnerCoords emptyEM ∧
      (undoN [AddReq.line 0 0 100 0, AddReq.spawner 3 4,
          AddReq.line 0 0 0 10].length
        (execReqs [AddReq.line 0 0 100 0, AddReq.spawner 3 4,
          AddReq.line 0 0 0 10] (freshHistory 100, emptyEM))).2.balls
        = emptyEM.balls) ∧
     (lineCoords (redoN [AddReq.line 0 0 100 0, AddReq.spawner 3 4,
          AddReq.line 0 0 0 10].length (undoN [AddReq.line 0 0 100 0,
          AddReq.spawner 3 4, AddReq.line 0 0 0 10].length
        (execReqs [AddReq.line 0 0 100 0, AddReq.spawner 3 4,
          AddReq.line 0 0 0 10] (freshHistory 100, emptyEM)))).2
        = lineCoords (execReqs [AddReq.line 0 0 100 0, AddReq.spawner 3 4,
          AddReq.line 0 0 0 10] (freshHistory 100, emptyEM)).2 ∧
      spawnerCoords (redoN [AddReq.line 0 0 100 0, AddReq.spawner 3 4,
          AddReq.line 0 0 0 10].length (undoN [AddReq.line 0 0 100 0,
          AddReq.spawner 3 4, AddReq.line 0 0 0 10].length
        (execReqs [AddReq.line 0 0 100 0, AddReq.spawner 3 4,
          AddReq.line 0 0 0 10] (freshHistory 100, emptyEM)))).2
        = spawnerCoords (execReqs [AddReq.line 0 0 100 0, AddReq.spawner 3 4,
          AddReq.line 0 0 0 10] (freshHistory 100, emptyEM)).2 ∧
      (redoN [AddReq.line 0 0 100 0, AddReq.spawner 3 4,
          AddReq.line 0 0 0 10].length (undoN [AddReq.line 0 0 100 0,
          AddReq.spawner 3 4, AddReq.line 0 0 0 10].length
        (execReqs [AddReq.line 0 0 100 0, AddReq.spawner 3 4,
          AddReq.line 0 0 0 10] (freshHistory 100, emptyEM)))).2.balls
        = (execReqs [AddReq.line 0 0 100 0, AddReq.spawner 3 4,
          AddReq.line 0 0 0 10] (freshHistory 100, emptyEM)).2.balls)) :=
  ⟨⟨wf_emptyEM, by norm_num⟩,
   undo_redo_inverse_for_add_commands
     [AddReq.line 0 0 100 0, AddReq.spawner 3 4, AddReq.line 0 0 0 10]
     emptyEM 100 wf_emptyEM (by norm_num)⟩

end BounceBeats
